import Mathlib

/-!
Shallow embedding of `src/Task1.py` (k-ary fat-tree builder, link-failure
injector, path analyzer and experiment orchestrator) and proofs of the
specification claims about it.

Modelling choices:
* Node identifiers: the source builds string identifiers `f"C_{c}"`,
  `f"A_{pod}_{a}"`, `f"E_{pod}_{e}"`, `f"H_{i}"`.  The formats are disjoint
  and injective in their indices, so they are embedded as the four
  constructors of `NodeId`.
* Graphs: `networkx.Graph` is undirected with at most one edge per node
  pair and per-node / per-edge attributes.  We embed a graph as the list of
  its nodes (with their attributes) and the list of its links in insertion
  order; `has_edge` ignores orientation, as in networkx.
* Python exceptions become `Except PyError`; `sys.exit(1)` is `systemExit`.
* Python floats (failure rates, averages) are modelled as rationals `ℚ`.
* The global `random` module is modelled as an explicit state of an
  abstract type threaded through the computation; `random.seed`
  and `random.sample` are fields of a `RandomOps` structure.  `random.sample`
  raising `ValueError` when the requested size exceeds the population is part
  of its documented behaviour and is modelled at the call site.
-/

namespace FatTree

/-- Role tag of a node: the `type` attribute of the source
(`'core'`, `'agg'`, `'edge'`, `'host'`). -/
inductive NodeType
  | core
  | agg
  | edge
  | host
deriving DecidableEq, Repr

/-- Node identifiers, embedding the string identifiers
`f"C_{c}"`, `f"A_{pod}_{a}"`, `f"E_{pod}_{e}"`, `f"H_{i}"` of the source. -/
inductive NodeId
  | core (c : Nat)
  | agg (pod a : Nat)
  | edge (pod e : Nat)
  | host (h : Nat)
deriving DecidableEq, Repr

/-- The `layer` attribute of a link: `'edge_host'`, `'agg_edge'`, `'agg_core'`. -/
inductive Layer
  | edge_host
  | agg_edge
  | agg_core
deriving DecidableEq, Repr

/-- A node with its attributes (`type`, `pod`, and for hosts `edge_anchor`).
Core switches carry `pod = -1` as in the source. -/
structure Node where
  id : NodeId
  type : NodeType
  pod : Int
  edge_anchor : Option NodeId
deriving DecidableEq, Repr

/-- An undirected link, stored with the endpoint order of the
`G.add_edge(u, v, layer=...)` call that created it. -/
structure Link where
  u : NodeId
  v : NodeId
  layer : Layer
deriving DecidableEq, Repr

/-- A graph: node list and link list in insertion order. -/
structure Graph where
  nodes : List Node
  edges : List Link
deriving DecidableEq, Repr

/-- Python exceptions that the embedded code can raise. -/
inductive PyError
  | valueError (msg : String)
  | systemExit (code : Nat)
  | nodeNotFound
  | noPath
  | zeroDivision
deriving DecidableEq, Repr

/-- The parameter dictionary returned by `calculate_fat_tree_params`. -/
structure FatTreeParams where
  k : Nat
  k_half : Nat
  num_pods : Nat
  num_core_switches : Nat
  total_hosts : Nat
deriving DecidableEq, Repr

/-- `calculate_fat_tree_params(k)`: raises `ValueError` when `k` is odd or
`k < 2`, otherwise returns the derived structural parameters.  `k` is a
Python `int`, embedded as `Int` (Python `%` and Lean `Int.emod` agree on
nonnegative results for positive modulus); once `k ≥ 2` the values are the
natural numbers `k // 2`, `k`, `(k//2)²`, `k³ // 4`. -/
def calculate_fat_tree_params (k : Int) : Except PyError FatTreeParams :=
  if k % 2 ≠ 0 ∨ k < 2 then
    .error (.valueError ("k must be an even number greater than or equal to 2."))
  else
    let kn : Nat := k.toNat
    let k_half : Nat := kn / 2
    .ok { k := kn, k_half := k_half, num_pods := kn,
          num_core_switches := k_half * k_half, total_hosts := kn ^ 3 / 4 }

/-- The mutable state of the node-creation phase of `build_fat_tree`:
the graph's node and link lists built so far and the `current_host_idx`
counter. -/
structure BuildSt where
  nodes : List Node
  links : List Link
  current_host_idx : Nat
deriving DecidableEq, Repr

/-- The innermost loop `for h_idx in range(k_half)` of `build_fat_tree`:
adds one host node anchored at `edge_node_id`, one `edge_host` link, and
increments `current_host_idx`.  The loop variable `h_idx` is unused in the
source, so the loop is recursion on the trip count. -/
def hostLoop (pod : Nat) (edge_node_id : NodeId) : Nat → BuildSt → BuildSt
  | 0, st => st
  | n + 1, st =>
    hostLoop pod edge_node_id n
      { nodes := st.nodes ++ [{ id := .host st.current_host_idx, type := .host,
                                pod := (pod : Int), edge_anchor := some edge_node_id }],
        links := st.links ++ [{ u := edge_node_id, v := .host st.current_host_idx,
                                layer := .edge_host }],
        current_host_idx := st.current_host_idx + 1 }

/-- The body of `for e_idx in range(k_half)`: adds the edge switch
`E_{pod}_{e_idx}` and then its `k_half` hosts. -/
def edgeStep (k_half pod : Nat) (st : BuildSt) (e_idx : Nat) : BuildSt :=
  let edge_node_id : NodeId := .edge pod e_idx
  hostLoop pod edge_node_id k_half
    { nodes := st.nodes ++ [{ id := edge_node_id, type := .edge,
                              pod := (pod : Int), edge_anchor := none }],
      links := st.links, current_host_idx := st.current_host_idx }

/-- The body of `for pod_id in range(num_pods)`: adds the pod's `k_half`
aggregation switches, then its edge switches and hosts. -/
def podStep (k_half : Nat) (st : BuildSt) (pod_id : Nat) : BuildSt :=
  let st1 : BuildSt :=
    { nodes := st.nodes ++ (List.range k_half).map (fun a_idx =>
        { id := .agg pod_id a_idx, type := .agg,
          pod := (pod_id : Int), edge_anchor := none }),
      links := st.links, current_host_idx := st.current_host_idx }
  (List.range k_half).foldl (edgeStep k_half pod_id) st1

/-- Phase 2 of `build_fat_tree` (`# 2. Create Edges`): per pod, the full
bipartite `agg_edge` links followed by the striped `agg_core` links
(`core_idx = agg_idx * k_half + core_offset`). -/
def phase2Links (num_pods k_half : Nat) : List Link :=
  (List.range num_pods).flatMap (fun pod_id =>
    (List.range k_half).flatMap (fun a_idx =>
      (List.range k_half).map (fun e_idx =>
        { u := .agg pod_id a_idx, v := .edge pod_id e_idx, layer := .agg_edge }))
    ++ (List.range k_half).flatMap (fun agg_idx =>
      (List.range k_half).map (fun core_offset =>
        { u := .agg pod_id agg_idx, v := .core (agg_idx * k_half + core_offset),
          layer := .agg_core })))

/-- The graph construction of `build_fat_tree` after parameter validation:
core nodes, then the per-pod node/`edge_host`-link phase threading
`current_host_idx`, then the per-pod `agg_edge` and `agg_core` links. -/
def mkFatTree (params : FatTreeParams) : Graph :=
  let init : BuildSt :=
    { nodes := (List.range params.num_core_switches).map (fun c_idx =>
        { id := .core c_idx, type := .core, pod := -1, edge_anchor := none }),
      links := [], current_host_idx := 0 }
  let st := (List.range params.num_pods).foldl (podStep params.k_half) init
  { nodes := st.nodes, edges := st.links ++ phase2Links params.num_pods params.k_half }

/-- `build_fat_tree(k)`: on invalid `k` the source catches the `ValueError`
from `calculate_fat_tree_params`, prints it and calls `sys.exit(1)`; no graph
is produced.  Otherwise it returns the constructed graph. -/
def build_fat_tree (k : Int) : Except PyError Graph :=
  match calculate_fat_tree_params k with
  | .error _ => .error (.systemExit 1)
  | .ok params => .ok (mkFatTree params)

/-! ### Closed forms for the node-creation phase -/

/-- The host nodes created for edge switch `(pod, e_idx)` when
`current_host_idx` starts at `start`. -/
def hostNodesFor (k_half pod e_idx start : Nat) : List Node :=
  (List.range k_half).map (fun h =>
    { id := .host (start + h), type := .host,
      pod := (pod : Int), edge_anchor := some (.edge pod e_idx) })

/-- The `edge_host` links created for edge switch `(pod, e_idx)` when
`current_host_idx` starts at `start`. -/
def hostLinksFor (k_half pod e_idx start : Nat) : List Link :=
  (List.range k_half).map (fun h =>
    { u := .edge pod e_idx, v := .host (start + h), layer := .edge_host })

/-- Closed form of the nodes of pod `pod`. -/
def podNodesC (k_half pod : Nat) : List Node :=
  (List.range k_half).map (fun a_idx =>
    { id := .agg pod a_idx, type := .agg, pod := (pod : Int), edge_anchor := none })
  ++ (List.range k_half).flatMap (fun e_idx =>
    { id := NodeId.edge pod e_idx, type := .edge,
      pod := (pod : Int), edge_anchor := none }
    :: hostNodesFor k_half pod e_idx (pod * (k_half * k_half) + e_idx * k_half))

/-- Closed form of the full node list of the built graph. -/
def nodesC (num_pods k_half num_core : Nat) : List Node :=
  (List.range num_core).map (fun c_idx =>
    { id := .core c_idx, type := .core, pod := -1, edge_anchor := none })
  ++ (List.range num_pods).flatMap (fun pod => podNodesC k_half pod)

/-- Closed form of the `edge_host` links of the built graph. -/
def edgeHostLinksC (num_pods k_half : Nat) : List Link :=
  (List.range num_pods).flatMap (fun pod =>
    (List.range k_half).flatMap (fun e_idx =>
      hostLinksFor k_half pod e_idx (pod * (k_half * k_half) + e_idx * k_half)))

/-- Closed form of the full link list of the built graph. -/
def linksC (num_pods k_half : Nat) : List Link :=
  edgeHostLinksC num_pods k_half ++ phase2Links num_pods k_half

theorem hostLoop_eq (pod : Nat) (en : NodeId) :
    ∀ (n : Nat) (st : BuildSt),
    hostLoop pod en n st =
      { nodes := st.nodes ++ (List.range n).map (fun h =>
          { id := .host (st.current_host_idx + h), type := .host,
            pod := (pod : Int), edge_anchor := some en }),
        links := st.links ++ (List.range n).map (fun h =>
          { u := en, v := .host (st.current_host_idx + h), layer := .edge_host }),
        current_host_idx := st.current_host_idx + n } := by
  intro n
  induction n with
  | zero => intro st; simp [hostLoop]
  | succ m ih =>
    intro st
    rw [hostLoop, ih]
    simp only [List.range_succ_eq_map, List.map_cons, List.map_map, BuildSt.mk.injEq]
    refine ⟨?_, ?_, ?_⟩ <;>
      simp [List.append_assoc, Function.comp_def, Nat.add_comm, Nat.add_assoc,
        Nat.add_left_comm]

theorem edgeFold_eq (k_half pod : Nat) :
    ∀ (m : Nat) (st : BuildSt),
    (List.range m).foldl (edgeStep k_half pod) st =
      { nodes := st.nodes ++ (List.range m).flatMap (fun e_idx =>
          { id := NodeId.edge pod e_idx, type := .edge,
            pod := (pod : Int), edge_anchor := none }
          :: hostNodesFor k_half pod e_idx (st.current_host_idx + e_idx * k_half)),
        links := st.links ++ (List.range m).flatMap (fun e_idx =>
          hostLinksFor k_half pod e_idx (st.current_host_idx + e_idx * k_half)),
        current_host_idx := st.current_host_idx + m * k_half } := by
  intro m
  induction m with
  | zero => intro st; simp
  | succ m ih =>
    intro st
    rw [List.range_succ, List.foldl_append, ih]
    simp only [List.foldl_cons, List.foldl_nil, edgeStep, hostLoop_eq,
      List.flatMap_append, List.flatMap_singleton, BuildSt.mk.injEq]
    refine ⟨?_, ?_, ?_⟩
    · simp [hostNodesFor, List.append_assoc]
    · simp [hostLinksFor, List.append_assoc]
    · simp [Nat.succ_mul, Nat.add_assoc]

theorem podFold_eq (k_half : Nat) :
    ∀ (n : Nat) (st : BuildSt),
    (List.range n).foldl (podStep k_half) st =
      { nodes := st.nodes ++ (List.range n).flatMap (fun pod =>
          (List.range k_half).map (fun a_idx =>
            { id := .agg pod a_idx, type := .agg,
              pod := (pod : Int), edge_anchor := none })
          ++ (List.range k_half).flatMap (fun e_idx =>
            { id := NodeId.edge pod e_idx, type := .edge,
              pod := (pod : Int), edge_anchor := none }
            :: hostNodesFor k_half pod e_idx
                 (st.current_host_idx + pod * (k_half * k_half) + e_idx * k_half))),
        links := st.links ++ (List.range n).flatMap (fun pod =>
          (List.range k_half).flatMap (fun e_idx =>
            hostLinksFor k_half pod e_idx
              (st.current_host_idx + pod * (k_half * k_half) + e_idx * k_half))),
        current_host_idx := st.current_host_idx + n * (k_half * k_half) } := by
  intro n
  induction n with
  | zero => intro st; simp
  | succ n ih =>
    intro st
    rw [List.range_succ, List.foldl_append, ih]
    simp only [List.foldl_cons, List.foldl_nil, podStep, edgeFold_eq,
      List.flatMap_append, List.flatMap_singleton, BuildSt.mk.injEq]
    refine ⟨?_, ?_, ?_⟩
    · simp [List.append_assoc, Nat.add_assoc]
    · simp [List.append_assoc, Nat.add_assoc]
    · simp [Nat.succ_mul, Nat.add_assoc]

/-- The stateful construction agrees with its closed form. -/
theorem mkFatTree_eq (params : FatTreeParams) :
    mkFatTree params =
      { nodes := nodesC params.num_pods params.k_half params.num_core_switches,
        edges := linksC params.num_pods params.k_half } := by
  simp only [mkFatTree]
  rw [podFold_eq]
  simp only [nodesC, linksC, edgeHostLinksC, podNodesC, Graph.mk.injEq]
  refine ⟨?_, ?_⟩ <;> simp [Nat.add_assoc]

/-! ### Failure injection (`model_link_failures`) -/

/-- Whether link `l` connects `u` and `v`, in either orientation
(networkx graphs are undirected). -/
def sameEnds (l : Link) (u v : NodeId) : Bool :=
  (l.u == u && l.v == v) || (l.u == v && l.v == u)

/-- `G.has_edge(u, v)` of networkx. -/
def has_edge (G : Graph) (u v : NodeId) : Bool :=
  G.edges.any (fun l => sameEnds l u v)

/-- The loop body `if G.has_edge(u, v): G.remove_edge(u, v)` of
`model_link_failures`.  networkx stores at most one edge per unordered
node pair; removal drops the link between `u` and `v`. -/
def remove_edge_checked (G : Graph) (u v : NodeId) : Graph :=
  if has_edge G u v then
    { G with edges := G.edges.filter (fun l => !sameEnds l u v) }
  else G

/-- The Python `random` module, abstractly: `seed n` is the generator state
right after `random.seed(n)`; `samplePairs` and `sampleLinks` are
`random.sample` at the two element types the source samples
(host pairs and edges), returning the sample and the advanced state.
They are only invoked with a size that is at most the population length;
`random.sample` raising `ValueError` for a larger size is modelled at the
call site. -/
structure RandomOps (ρ : Type) where
  seed : Nat → ρ
  samplePairs : ρ → List (NodeId × NodeId) → Nat → List (NodeId × NodeId) × ρ
  sampleLinks : ρ → List Link → Nat → List Link × ρ

/-- `num_to_fail = math.ceil(total_edges * (failure_rate_percent / 100.0))`. -/
def num_to_fail (G : Graph) (failure_rate_percent : ℚ) : Nat :=
  (Int.ceil ((G.edges.length : ℚ) * (failure_rate_percent / 100))).toNat

/-- `model_link_failures(G, failure_rate_percent)`: returns `[]` and leaves
`G` alone when the rate is `≤ 0`; otherwise draws
`random.sample(all_edges, num_to_fail)` — which raises `ValueError` when
`num_to_fail` exceeds the population — removes each sampled link from `G`
and returns the sampled list.  The random state is threaded explicitly. -/
def model_link_failures {ρ : Type} (ops : RandomOps ρ) (G : Graph)
    (failure_rate_percent : ℚ) (st : ρ) :
    Except PyError (Graph × List Link) × ρ :=
  if failure_rate_percent ≤ 0 then (.ok (G, []), st)
  else
    let all_edges := G.edges
    let total_edges := all_edges.length
    if num_to_fail G failure_rate_percent ≤ total_edges then
      let sampled := ops.sampleLinks st all_edges (num_to_fail G failure_rate_percent)
      let edges_to_remove := sampled.1
      let Gfinal := edges_to_remove.foldl (fun g l => remove_edge_checked g l.u l.v) G
      (.ok (Gfinal, edges_to_remove), sampled.2)
    else
      (.error (.valueError ("Sample larger than population or is negative")), st)

/-! ### Path analysis (`calculate_avg_path_length`) -/

/-- The node identifiers of `G`, in insertion order. -/
def nodeIds (G : Graph) : List NodeId := G.nodes.map (fun nd => nd.id)

/-- The other endpoint of a link incident to `u`; `none` when `l` does not
touch `u`. -/
def otherEnd (u : NodeId) (l : Link) : Option NodeId :=
  if l.u == u then some l.v else if l.v == u then some l.u else none

/-- All neighbors of `u` in `G` (other endpoints of incident links, any
layer), in link order. -/
def neighborsOf (G : Graph) (u : NodeId) : List NodeId :=
  G.edges.filterMap (otherEnd u)

/-- Breadth-first search layer expansion: `frontier` is the set of nodes at
distance `d` from the source, `visited` everything at distance `< d`; the
next layer is the set of yet unvisited neighbors of the frontier.
Returns the hop count to `t` if reachable. -/
def bfsLoop (G : Graph) (t : NodeId) :
    Nat → List NodeId → List NodeId → Nat → Option Nat
  | 0, _, _, _ => none
  | fuel + 1, frontier, visited, d =>
    if frontier.contains t then some d
    else
      let visited1 := visited ++ frontier
      let next := ((frontier.flatMap (fun u => neighborsOf G u)).filter
        (fun v => !visited1.contains v)).dedup
      if next.isEmpty then none
      else bfsLoop G t fuel next visited1 (d + 1)

/-- `nx.shortest_path_length(G, source=source, target=target)`: raises
`NodeNotFound` when either endpoint is not a node of `G`, raises
`NetworkXNoPath` when the endpoints are disconnected, otherwise returns
the unweighted hop count (0 when `source == target`). -/
def shortest_path_length (G : Graph) (source target : NodeId) : Except PyError Nat :=
  if (nodeIds G).contains source && (nodeIds G).contains target then
    match bfsLoop G target (G.nodes.length + 1) [source] [] 0 with
    | some d => .ok d
    | none => .error .noPath
  else .error .nodeNotFound

/-- The `for source, target in host_pairs` loop of
`calculate_avg_path_length`, threading the graph (which
`nx.shortest_path_length` only reads) together with the two counters.
A `NetworkXNoPath` outcome is swallowed by the `except` clause; any other
exception propagates and aborts the loop. -/
def analyzeLoop :
    List (NodeId × NodeId) → Graph → Nat → Nat → Except PyError (Nat × Nat) × Graph
  | [], G, total_path_length, connected_pairs_count =>
    (.ok (total_path_length, connected_pairs_count), G)
  | (source, target) :: rest, G, total_path_length, connected_pairs_count =>
    match shortest_path_length G source target with
    | .ok length =>
      analyzeLoop rest G (total_path_length + length) (connected_pairs_count + 1)
    | .error .noPath => analyzeLoop rest G total_path_length connected_pairs_count
    | .error e => (.error e, G)

/-- `calculate_avg_path_length(G, host_pairs)`: the `(avg_length,
reachability)` pair, as rationals, together with the graph as it stands
after the call. -/
def calculate_avg_path_length (G : Graph) (host_pairs : List (NodeId × NodeId)) :
    Except PyError (ℚ × ℚ) × Graph :=
  let num_pairs_checked := host_pairs.length
  if num_pairs_checked = 0 then (.ok (0, 0), G)
  else
    match analyzeLoop host_pairs G 0 0 with
    | (.error e, G1) => (.error e, G1)
    | (.ok (total_path_length, connected_pairs_count), G1) =>
      if connected_pairs_count = 0 then (.ok (0, 0), G1)
      else
        (.ok ((total_path_length : ℚ) / (connected_pairs_count : ℚ),
              ((connected_pairs_count : ℚ) / (num_pairs_checked : ℚ)) * 100), G1)

/-! ### Experiment orchestration (`run_experiment_cycle`) -/

/-- `[(source, target) for i, source in enumerate(all_hosts)
                       for j, target in enumerate(all_hosts) if i != j]`. -/
def all_possible_pairs (all_hosts : List NodeId) : List (NodeId × NodeId) :=
  all_hosts.enum.flatMap (fun is =>
    all_hosts.enum.flatMap (fun jt =>
      if is.1 ≠ jt.1 then [(is.2, jt.2)] else []))

/-- The `results` dictionary of `run_experiment_cycle`. -/
structure ExpResults where
  fail_rate : List ℚ
  avg_path : List ℚ
  reachability : List ℚ
deriving DecidableEq, Repr

/-- The body of the `for run in range(N_RUNS)` loop: build a fresh fat
tree, reseed the generator with the run index, inject failures, analyze
against the fixed pairs.  Returns the `(length, reachability)` outcome (or
the propagating exception) together with the generator state left behind. -/
def trialFull {ρ : Type} (ops : RandomOps ρ) (k : Int) (rate : ℚ)
    (fixed_host_pairs : List (NodeId × NodeId)) (run : Nat) (st : ρ) :
    Except PyError (ℚ × ℚ) × ρ :=
  match build_fat_tree k with
  | .error e => (.error e, st)
  | .ok G =>
    let st1 := ops.seed run
    match model_link_failures ops G rate st1 with
    | (.error e, st2) => (.error e, st2)
    | (.ok (G1, _failed), st2) => ((calculate_avg_path_length G1 fixed_host_pairs).1, st2)

/-- The `for run in range(N_RUNS)` loop: run each trial and accumulate the
two sums.  Any exception aborts the whole experiment. -/
def runLoop {ρ : Type} (ops : RandomOps ρ) (k : Int) (rate : ℚ)
    (fixed_host_pairs : List (NodeId × NodeId)) :
    List Nat → ρ → ℚ → ℚ → Except PyError (ℚ × ℚ) × ρ
  | [], st, avg_length_sum, reachability_sum =>
    (.ok (avg_length_sum, reachability_sum), st)
  | run :: rest, st, avg_length_sum, reachability_sum =>
    match trialFull ops k rate fixed_host_pairs run st with
    | (.error e, st2) => (.error e, st2)
    | (.ok lr, st2) =>
      runLoop ops k rate fixed_host_pairs rest st2
        (avg_length_sum + lr.1) (reachability_sum + lr.2)

/-- The `for rate in fail_rates` loop: run all trials of a rate, then
append the per-rate means to the results lists (Python raises
`ZeroDivisionError` when `N_RUNS` is 0). -/
def rateLoop {ρ : Type} (ops : RandomOps ρ) (k : Int)
    (fixed_host_pairs : List (NodeId × NodeId)) (nRuns : Nat) :
    List ℚ → ρ → ExpResults → Except PyError ExpResults × ρ
  | [], st, results => (.ok results, st)
  | rate :: rest, st, results =>
    match runLoop ops k rate fixed_host_pairs (List.range nRuns) st 0 0 with
    | (.error e, st1) => (.error e, st1)
    | (.ok (avg_length_sum, reachability_sum), st1) =>
      if nRuns = 0 then (.error .zeroDivision, st1)
      else
        rateLoop ops k fixed_host_pairs nRuns rest st1
          { fail_rate := results.fail_rate ++ [rate],
            avg_path := results.avg_path ++ [avg_length_sum / (nRuns : ℚ)],
            reachability := results.reachability ++ [reachability_sum / (nRuns : ℚ)] }

/-- `run_experiment_cycle(k, fail_rates, N_RUNS, N_SAMPLES)`: derive the
parameters (`ValueError` propagates), seed 1000 and build the single fixed
host-pair sample set (exhaustive when there are at most 16 hosts, else a
`random.sample` of `min(N_SAMPLES, total pairs)`), then sweep the rates. -/
def run_experiment_cycle {ρ : Type} (ops : RandomOps ρ) (k : Int)
    (fail_rates : List ℚ) (nRuns nSamples : Nat) (st0 : ρ) :
    Except PyError ExpResults × ρ :=
  match calculate_fat_tree_params k with
  | .error e => (.error e, st0)
  | .ok params =>
    let all_hosts := (List.range params.total_hosts).map NodeId.host
    let num_hosts := all_hosts.length
    let st1 := ops.seed 1000
    let sampled :=
      if num_hosts ≤ 16 then (all_possible_pairs all_hosts, st1)
      else
        let apl := all_possible_pairs all_hosts
        let effective_samples := min nSamples apl.length
        ops.samplePairs st1 apl effective_samples
    rateLoop ops k sampled.1 nRuns fail_rates sampled.2
      { fail_rate := [], avg_path := [], reachability := [] }

/-! ### Spec-side formulation of the orchestrator (for the refinement claim)

These definitions follow the wording of the specification (§4.4): the
host-pair sample set is constructed exactly once, and every trial is a pure
function of `(k, rate, trial index, fixed sample set)`. -/

/-- Spec side: the fixed host-pair sample set, constructed once before any
trial — exhaustive ordered pairs when there are at most 16 hosts, otherwise
a sample of size `min(maxSamplePairs, totalPossiblePairs)` drawn from the
random source seeded with the dedicated sampling seed 1000. -/
def fixedSampleSet {ρ : Type} (ops : RandomOps ρ) (total_hosts nSamples : Nat) :
    List (NodeId × NodeId) :=
  let all_hosts := (List.range total_hosts).map NodeId.host
  let apl := all_possible_pairs all_hosts
  if total_hosts ≤ 16 then apl
  else (ops.samplePairs (ops.seed 1000) apl (min nSamples apl.length)).1

/-- Spec side: one trial, a pure function of the topology parameter, the
rate, the trial index and the fixed sample set; its failure pattern is
seeded from the trial index alone. -/
def trial {ρ : Type} (ops : RandomOps ρ) (k : Int) (rate : ℚ)
    (fixed_host_pairs : List (NodeId × NodeId)) (run : Nat) :
    Except PyError (ℚ × ℚ) :=
  match build_fat_tree k with
  | .error e => .error e
  | .ok G =>
    match model_link_failures ops G rate (ops.seed run) with
    | (.error e, _) => .error e
    | (.ok (G1, _failed), _) => (calculate_avg_path_length G1 fixed_host_pairs).1

/-- Spec side: sum the outcomes of the trials of one rate; the first
failing trial aborts. -/
def sumTrials (f : Nat → Except PyError (ℚ × ℚ)) :
    List Nat → Except PyError (ℚ × ℚ)
  | [] => .ok (0, 0)
  | run :: rest =>
    match f run with
    | .error e => .error e
    | .ok ab =>
      match sumTrials f rest with
      | .error e => .error e
      | .ok s => .ok (ab.1 + s.1, ab.2 + s.2)

/-- Spec side: per-rate means over the trials, in input order, against one
fixed pair set. -/
def specRates {ρ : Type} (ops : RandomOps ρ) (k : Int)
    (pairs : List (NodeId × NodeId)) (nRuns : Nat) :
    List ℚ → Except PyError ExpResults
  | [] => .ok { fail_rate := [], avg_path := [], reachability := [] }
  | rate :: rest =>
    match sumTrials (trial ops k rate pairs) (List.range nRuns) with
    | .error e => .error e
    | .ok s =>
      if nRuns = 0 then .error .zeroDivision
      else
        match specRates ops k pairs nRuns rest with
        | .error e => .error e
        | .ok res =>
          .ok { fail_rate := rate :: res.fail_rate,
                avg_path := s.1 / (nRuns : ℚ) :: res.avg_path,
                reachability := s.2 / (nRuns : ℚ) :: res.reachability }

/-- Spec side: the whole experiment — the sample set is built exactly once
and the same list is passed to every rate and every trial. -/
def run_experiment_spec {ρ : Type} (ops : RandomOps ρ) (k : Int)
    (fail_rates : List ℚ) (nRuns nSamples : Nat) : Except PyError ExpResults :=
  match calculate_fat_tree_params k with
  | .error e => .error e
  | .ok params =>
    specRates ops k (fixedSampleSet ops params.total_hosts nSamples) nRuns fail_rates

/-! ### Observables used by the claims -/

/-- Whether `G` has a link of layer `layer` between `u` and `v`
(either orientation). -/
def hasLayerLink (G : Graph) (layer : Layer) (u v : NodeId) : Bool :=
  G.edges.any (fun l => l.layer == layer && sameEnds l u v)

/-- On an `agg_core` link incident to aggregation switch `(pod, a_idx)`,
the global index of the core endpoint; `none` otherwise. -/
def aggCoreCoreEnd (pod a_idx : Nat) (l : Link) : Option Nat :=
  if l.layer == Layer.agg_core then
    match l.u, l.v with
    | .agg p a, .core c => if p = pod ∧ a = a_idx then some c else none
    | .core c, .agg p a => if p = pod ∧ a = a_idx then some c else none
    | _, _ => none
  else none

/-- Global indices of the core switches joined by an `agg_core` link to
aggregation switch `a_idx` of pod `pod`, in link order. -/
def coreNeighborsOfAgg (G : Graph) (pod a_idx : Nat) : List Nat :=
  G.edges.filterMap (aggCoreCoreEnd pod a_idx)

/-- On an `agg_core` link incident to core switch `c`, the
`(pod, a_idx)` identity of the aggregation endpoint; `none` otherwise. -/
def aggCoreAggEnd (c : Nat) (l : Link) : Option (Nat × Nat) :=
  if l.layer == Layer.agg_core then
    match l.u, l.v with
    | .agg p a, .core c0 => if c0 = c then some (p, a) else none
    | .core c0, .agg p a => if c0 = c then some (p, a) else none
    | _, _ => none
  else none

/-- `(pod, a_idx)` of the aggregation switches joined by an `agg_core` link
to core switch `c`, in link order. -/
def aggNeighborsOfCore (G : Graph) (c : Nat) : List (Nat × Nat) :=
  G.edges.filterMap (aggCoreAggEnd c)

/-- The host identifier of a node, when it is a host. -/
def hostIdOf (nd : Node) : Option Nat :=
  match nd.id with | .host i => some i | _ => none

/-- Host identifiers of `G` in node-list order. -/
def hostIdsInOrder (G : Graph) : List Nat :=
  G.nodes.filterMap hostIdOf

/-- Number of nodes of `G` with `type` attribute `t`. -/
def countType (G : Graph) (t : NodeType) : Nat :=
  G.nodes.countP (fun nd => nd.type == t)

/-- Number of host pairs of the list whose endpoints are connected in `G`
(the `connected_pairs_count` of a completed analysis loop). -/
def reachCount (G : Graph) (pairs : List (NodeId × NodeId)) : Nat :=
  pairs.countP (fun pr => (shortest_path_length G pr.1 pr.2).toOption.isSome)

/-- Sum of the shortest-path hop counts over the reachable pairs of the
list (the `total_path_length` of a completed analysis loop). -/
def reachSum (G : Graph) (pairs : List (NodeId × NodeId)) : Nat :=
  (pairs.filterMap (fun pr => (shortest_path_length G pr.1 pr.2).toOption)).sum

/-! ### General list lemmas -/

theorem flatMap_eq_single {α : Type _} (f : Nat → List α) (n j : Nat) (hj : j < n)
    (h : ∀ a, a < n → a ≠ j → f a = []) :
    (List.range n).flatMap f = f j := by
  induction n with
  | zero => omega
  | succ n ih =>
    rw [List.range_succ, List.flatMap_append, List.flatMap_singleton]
    rcases Nat.lt_or_ge j n with hlt | hge
    · rw [ih hlt (fun a ha hne => h a (by omega) hne), h n (by omega) (by omega)]
      simp
    · have hj' : j = n := by omega
      subst hj'
      rw [List.flatMap_eq_nil_iff.mpr, List.nil_append]
      intro x hx
      have hxn := List.mem_range.mp hx
      exact h x (by omega) (by omega)

theorem filterMap_window {α : Type _} (g : Nat → α) (m b c : Nat) :
    (List.range m).filterMap (fun o => if b + o = c then some (g o) else none) =
      if b ≤ c ∧ c < b + m then [g (c - b)] else [] := by
  induction m with
  | zero =>
    rw [List.range_zero, List.filterMap_nil, if_neg]
    omega
  | succ m ih =>
    rw [List.range_succ, List.filterMap_append, ih]
    by_cases hbm : b + m = c
    · rw [if_neg (by omega), if_pos (by omega)]
      have hc : c - b = m := by omega
      simp [hbm, hc]
    · by_cases hw : b ≤ c ∧ c < b + m
      · rw [if_pos hw, if_pos (by omega)]
        simp [hbm]
      · rw [if_neg hw, if_neg (by omega)]
        simp [hbm]

theorem countP_flatMap_const {α : Type _} (f : Nat → List α) (p : α → Bool) (c : Nat) :
    ∀ n, (∀ a, a < n → (f a).countP p = c) →
    ((List.range n).flatMap f).countP p = n * c := by
  intro n
  induction n with
  | zero => simp
  | succ n ih =>
    intro h
    rw [List.range_succ, List.flatMap_append, List.countP_append, List.flatMap_singleton,
      ih (fun a ha => h a (by omega)), h n (by omega), Nat.succ_mul]

theorem flatMap_block (m n C : Nat) :
    (List.range m).flatMap (fun i => (List.range n).map (fun j => C + (i * n + j))) =
      (List.range (m * n)).map (fun j => C + j) := by
  induction m with
  | zero => simp
  | succ m ih =>
    rw [List.range_succ, List.flatMap_append, ih, List.flatMap_singleton, Nat.succ_mul,
      List.range_add, List.map_append, List.map_map]
    simp [Function.comp_def, Nat.add_assoc]

theorem filterMap_flatMap {α β γ : Type _} (l : List α) (g : α → List β) (f : β → Option γ) :
    (l.flatMap g).filterMap f = l.flatMap (fun a => (g a).filterMap f) := by
  induction l with
  | nil => rfl
  | cons a l ih => rw [List.flatMap_cons, List.filterMap_append, ih, List.flatMap_cons]

theorem filterMap_some_fn {α β : Type _} (f : α → β) (l : List α) :
    l.filterMap (fun a => some (f a)) = l.map f := by
  induction l with
  | nil => rfl
  | cons a l ih => simp [List.filterMap_cons, ih]

/-- A `Nat.div` value pinned down by a window. -/
theorem div_eq_of_window {kh a c : Nat} (h1 : a * kh ≤ c) (h2 : c < a * kh + kh) :
    c / kh = a := by
  have hkh : 0 < kh := by omega
  obtain ⟨r, hr⟩ : ∃ r, c = a * kh + r := ⟨c - a * kh, by omega⟩
  subst hr
  have hrkh : r < kh := by omega
  rw [Nat.add_comm, Nat.mul_comm, Nat.add_mul_div_left _ _ hkh,
    Nat.div_eq_of_lt hrkh, Nat.zero_add]

/-! ### Removal-fold characterization -/

theorem remove_edge_checked_nodes (G : Graph) (u v : NodeId) :
    (remove_edge_checked G u v).nodes = G.nodes := by
  unfold remove_edge_checked
  split <;> rfl

theorem remove_edge_checked_edges (G : Graph) (u v : NodeId) :
    (remove_edge_checked G u v).edges = G.edges.filter (fun l => !sameEnds l u v) := by
  unfold remove_edge_checked
  split
  · rfl
  · next h =>
    rw [eq_comm, List.filter_eq_self]
    intro l hl
    cases hs : sameEnds l u v
    · rfl
    · exact absurd (by
        simp only [has_edge, List.any_eq_true]
        exact ⟨l, hl, hs⟩) h

theorem foldl_remove_edges (R : List Link) :
    ∀ G : Graph,
    (R.foldl (fun g l => remove_edge_checked g l.u l.v) G).edges =
      G.edges.filter (fun e => R.all (fun l => !sameEnds e l.u l.v)) ∧
    (R.foldl (fun g l => remove_edge_checked g l.u l.v) G).nodes = G.nodes := by
  induction R with
  | nil => intro G; simp
  | cons r rest ih =>
    intro G
    rw [List.foldl_cons]
    obtain ⟨he, hn⟩ := ih (remove_edge_checked G r.u r.v)
    refine ⟨?_, by rw [hn, remove_edge_checked_nodes]⟩
    rw [he, remove_edge_checked_edges, List.filter_filter]
    apply List.filter_congr
    intro e _
    simp [Bool.and_comm]

/-- Every link connects its own endpoints. -/
theorem sameEnds_self (l : Link) : sameEnds l l.u l.v = true := by
  simp [sameEnds]

/-! ### Analyzer-loop characterization -/

theorem analyzeLoop_graph :
    ∀ (pairs : List (NodeId × NodeId)) (G : Graph) (a c : Nat),
    (analyzeLoop pairs G a c).2 = G := by
  intro pairs
  induction pairs with
  | nil => intro G a c; rfl
  | cons pr rest ih =>
    intro G a c
    obtain ⟨s, t⟩ := pr
    rw [analyzeLoop]
    rcases shortest_path_length G s t with e | d
    · cases e <;> first | rfl | exact ih G a c
    · exact ih G (a + d) (c + 1)

/-- `shortest_path_length` has exactly three outcomes: a hop count,
`NetworkXNoPath`, or `NodeNotFound`. -/
theorem shortest_path_length_cases (G : Graph) (s t : NodeId) :
    (∃ d, shortest_path_length G s t = .ok d) ∨
      shortest_path_length G s t = .error .noPath ∨
      shortest_path_length G s t = .error .nodeNotFound := by
  unfold shortest_path_length
  split
  · rcases bfsLoop G t (G.nodes.length + 1) [s] [] 0 with _ | d
    · exact .inr (.inl rfl)
    · exact .inl ⟨d, rfl⟩
  · exact .inr (.inr rfl)

/-- When both endpoints of the query are nodes of the graph,
`shortest_path_length` never raises `NodeNotFound`. -/
theorem shortest_path_length_no_nodeNotFound (G : Graph) (s t : NodeId)
    (hs : s ∈ nodeIds G) (ht : t ∈ nodeIds G) :
    shortest_path_length G s t ≠ .error .nodeNotFound := by
  unfold shortest_path_length
  rw [if_pos]
  · rcases bfsLoop G t (G.nodes.length + 1) [s] [] 0 with _ | d <;> simp
  · simp only [Bool.and_eq_true]
    exact ⟨List.elem_iff.mpr hs, List.elem_iff.mpr ht⟩

theorem analyzeLoop_eq (G : Graph) :
    ∀ (pairs : List (NodeId × NodeId)) (a c : Nat),
    (∀ pr ∈ pairs, shortest_path_length G pr.1 pr.2 ≠ .error .nodeNotFound) →
    analyzeLoop pairs G a c = (.ok (a + reachSum G pairs, c + reachCount G pairs), G) := by
  intro pairs
  induction pairs with
  | nil => intro a c _; simp [analyzeLoop, reachSum, reachCount]
  | cons pr rest ih =>
    intro a c h
    obtain ⟨s, t⟩ := pr
    have hpr := h (s, t) (by simp)
    have hrest := fun pr hpr => h pr (List.mem_cons_of_mem _ hpr)
    rw [analyzeLoop]
    rcases hspl : shortest_path_length G s t with e | d
    · have hcases := shortest_path_length_cases G s t
      rw [hspl] at hcases hpr
      have he : e = .noPath := by
        rcases hcases with ⟨d, hok⟩ | hnp | hnn
        · exact absurd hok (by simp)
        · simpa using hnp
        · exact absurd (by simpa using hnn) (by simpa using hpr)
      subst he
      show analyzeLoop rest G a c = _
      rw [ih a c hrest]
      simp only [reachSum, reachCount, List.filterMap_cons, List.countP_cons, hspl]
      simp [Except.toOption]
    · show analyzeLoop rest G (a + d) (c + 1) = _
      rw [ih (a + d) (c + 1) hrest]
      simp only [reachSum, reachCount, List.filterMap_cons, List.countP_cons, hspl]
      simp [Except.toOption, Nat.add_assoc, Nat.add_comm, Nat.add_left_comm]

/-! ### Structure of the built graph -/

theorem flatMap_eq_single' {α : Type _} {f : Nat → List α} {n j : Nat} {r : List α}
    (hj : j < n) (hfj : f j = r) (h : ∀ a, a < n → a ≠ j → f a = []) :
    (List.range n).flatMap f = r := by
  rw [flatMap_eq_single f n j hj h, hfj]

theorem edgeHostLinksC_layer (np kh : Nat) :
    ∀ l ∈ edgeHostLinksC np kh, l.layer = Layer.edge_host := by
  intro l hl
  simp only [edgeHostLinksC, hostLinksFor, List.mem_flatMap, List.mem_range,
    List.mem_map] at hl
  obtain ⟨p, _, e, _, h, _, rfl⟩ := hl
  rfl

theorem aggCoreCoreEnd_layer_none (pod a_idx : Nat) (l : Link)
    (h : l.layer ≠ Layer.agg_core) : aggCoreCoreEnd pod a_idx l = none := by
  unfold aggCoreCoreEnd
  rw [if_neg (by simpa using h)]

theorem aggCoreAggEnd_layer_none (c : Nat) (l : Link)
    (h : l.layer ≠ Layer.agg_core) : aggCoreAggEnd c l = none := by
  unfold aggCoreAggEnd
  rw [if_neg (by simpa using h)]

theorem filterMap_aggCoreCoreEnd_edgeHost (np kh pod a_idx : Nat) :
    (edgeHostLinksC np kh).filterMap (aggCoreCoreEnd pod a_idx) = [] :=
  List.filterMap_eq_nil_iff.mpr fun l hl =>
    aggCoreCoreEnd_layer_none _ _ _ (by rw [edgeHostLinksC_layer np kh l hl]; simp)

theorem filterMap_aggCoreAggEnd_edgeHost (np kh c : Nat) :
    (edgeHostLinksC np kh).filterMap (aggCoreAggEnd c) = [] :=
  List.filterMap_eq_nil_iff.mpr fun l hl =>
    aggCoreAggEnd_layer_none _ _ (by rw [edgeHostLinksC_layer np kh l hl]; simp)

/-- The striping rows of one pod, `filterMap`ped for the core neighbors of
`(pod, a_idx)`: only the row of pod `pod`, aggregation index `a_idx`
survives, giving exactly the contiguous block starting at `a_idx * kh`. -/
theorem coreNeighborsOfAgg_built (ns : List Node) (np kh pod a_idx : Nat)
    (hp : pod < np) (hi : a_idx < kh) :
    coreNeighborsOfAgg { nodes := ns, edges := linksC np kh } pod a_idx =
      (List.range kh).map (fun o => a_idx * kh + o) := by
  show (linksC np kh).filterMap (aggCoreCoreEnd pod a_idx) = _
  unfold linksC
  rw [List.filterMap_append, filterMap_aggCoreCoreEnd_edgeHost, List.nil_append]
  unfold phase2Links
  rw [filterMap_flatMap]
  refine flatMap_eq_single' hp ?_ ?_
  · rw [List.filterMap_append]
    rw [show ((List.range kh).flatMap fun a_idx2 => (List.range kh).map fun e_idx =>
        ({ u := .agg pod a_idx2, v := .edge pod e_idx, layer := .agg_edge } : Link)).filterMap
        (aggCoreCoreEnd pod a_idx) = [] from ?_]
    · rw [List.nil_append, filterMap_flatMap]
      refine flatMap_eq_single' hi ?_ ?_
      · rw [List.filterMap_map]
        rw [show ((aggCoreCoreEnd pod a_idx) ∘ fun o =>
            ({ u := .agg pod a_idx, v := .core (a_idx * kh + o),
               layer := .agg_core } : Link)) = fun o => some (a_idx * kh + o) from ?_]
        · exact filterMap_some_fn _ _
        · funext o
          simp [aggCoreCoreEnd, Function.comp_def]
      · intro a ha hne
        rw [List.filterMap_map]
        apply List.filterMap_eq_nil_iff.mpr
        intro o ho
        simp [aggCoreCoreEnd, Function.comp_def, hne]
    · apply List.filterMap_eq_nil_iff.mpr
      intro l hl
      simp only [List.mem_flatMap, List.mem_range, List.mem_map] at hl
      obtain ⟨a2, _, e2, _, rfl⟩ := hl
      simp [aggCoreCoreEnd]
  · intro p2 hp2 hne
    rw [List.filterMap_append]
    apply List.append_eq_nil.mpr
    constructor
    · apply List.filterMap_eq_nil_iff.mpr
      intro l hl
      simp only [List.mem_flatMap, List.mem_range, List.mem_map] at hl
      obtain ⟨a2, _, e2, _, rfl⟩ := hl
      simp [aggCoreCoreEnd]
    · apply List.filterMap_eq_nil_iff.mpr
      intro l hl
      simp only [List.mem_flatMap, List.mem_range, List.mem_map] at hl
      obtain ⟨a2, _, o, _, rfl⟩ := hl
      simp [aggCoreCoreEnd, hne]

/-- Quotient/remainder-style uniqueness: `a * m + r` with `r < m` determines
`a` and `r`. -/
theorem mul_add_cancel {m a b r s : Nat} (hr : r < m) (hs : s < m)
    (h : a * m + r = b * m + s) : a = b ∧ r = s := by
  have ha : (a * m + r) / m = a := div_eq_of_window (by omega) (by omega)
  have hb : (b * m + s) / m = b := div_eq_of_window (by omega) (by omega)
  have hab : a = b := by rw [← ha, ← hb, h]
  subst hab
  exact ⟨rfl, by omega⟩

/-- The host counter value `p·kh² + e·kh + h` determines the pod, edge and
offset indices. -/
theorem decomp_unique {kh p e h p2 e2 h2 : Nat} (he : e < kh) (hh : h < kh)
    (he2 : e2 < kh) (hh2 : h2 < kh)
    (heq : p2 * (kh * kh) + e2 * kh + h2 = p * (kh * kh) + e * kh + h) :
    p2 = p ∧ e2 = e ∧ h2 = h := by
  have hb2 : e2 * kh + h2 < kh * kh := by
    have h1 : e2 * kh + h2 + 1 ≤ (e2 + 1) * kh := by rw [Nat.succ_mul]; omega
    have h2' : (e2 + 1) * kh ≤ kh * kh := Nat.mul_le_mul_right _ (by omega)
    omega
  have hb : e * kh + h < kh * kh := by
    have h1 : e * kh + h + 1 ≤ (e + 1) * kh := by rw [Nat.succ_mul]; omega
    have h2' : (e + 1) * kh ≤ kh * kh := Nat.mul_le_mul_right _ (by omega)
    omega
  have heq2 : p2 * (kh * kh) + (e2 * kh + h2) = p * (kh * kh) + (e * kh + h) := by
    omega
  obtain ⟨hpp, hee⟩ := mul_add_cancel hb2 hb heq2
  obtain ⟨h1, h2⟩ := mul_add_cancel hh2 hh hee
  exact ⟨hpp, h1, h2⟩

theorem aggNeighborsOfCore_built (ns : List Node) (np kh c : Nat)
    (hkh : 0 < kh) (hc : c < kh * kh) :
    aggNeighborsOfCore { nodes := ns, edges := linksC np kh } c =
      (List.range np).map (fun p => (p, c / kh)) := by
  show (linksC np kh).filterMap (aggCoreAggEnd c) = _
  unfold linksC
  rw [List.filterMap_append, filterMap_aggCoreAggEnd_edgeHost, List.nil_append]
  unfold phase2Links
  rw [filterMap_flatMap]
  have hpod : ∀ p2 : Nat,
      ((((List.range kh).flatMap fun a2 => (List.range kh).map fun e2 =>
          ({ u := .agg p2 a2, v := .edge p2 e2, layer := .agg_edge } : Link))
        ++ ((List.range kh).flatMap fun a2 => (List.range kh).map fun o =>
          ({ u := .agg p2 a2, v := .core (a2 * kh + o),
             layer := .agg_core } : Link))).filterMap (aggCoreAggEnd c))
        = [(p2, c / kh)] := by
    intro p2
    rw [List.filterMap_append]
    rw [show ((List.range kh).flatMap fun a2 => (List.range kh).map fun e2 =>
        ({ u := .agg p2 a2, v := .edge p2 e2, layer := .agg_edge } : Link)).filterMap
        (aggCoreAggEnd c) = [] from ?_]
    · rw [List.nil_append, filterMap_flatMap]
      refine flatMap_eq_single' (j := c / kh) ?_ ?_ ?_
      · exact (Nat.div_lt_iff_lt_mul hkh).mpr hc
      · rw [List.filterMap_map]
        rw [show ((aggCoreAggEnd c) ∘ fun o =>
            ({ u := .agg p2 (c / kh), v := .core (c / kh * kh + o),
               layer := .agg_core } : Link)) =
            fun o => if c / kh * kh + o = c then some (p2, c / kh) else none from ?_]
        · rw [filterMap_window (fun _ => (p2, c / kh)) kh (c / kh * kh) c]
          rw [if_pos ?_]
          · constructor
            · exact Nat.div_mul_le_self c kh
            · have h1 := Nat.div_add_mod c kh
              have h2 := Nat.mod_lt c hkh
              have h3 : kh * (c / kh) = c / kh * kh := Nat.mul_comm _ _
              omega
        · funext o
          simp [aggCoreAggEnd, Function.comp_def]
      · intro a ha hne
        rw [List.filterMap_map]
        apply List.filterMap_eq_nil_iff.mpr
        intro o ho
        have ho' := List.mem_range.mp ho
        simp only [Function.comp_def, aggCoreAggEnd]
        rw [if_pos (by simp)]
        rw [if_neg]
        intro heq
        have hda : c / kh = a := div_eq_of_window (by omega) (by omega)
        exact hne hda.symm
    · apply List.filterMap_eq_nil_iff.mpr
      intro l hl
      simp only [List.mem_flatMap, List.mem_range, List.mem_map] at hl
      obtain ⟨a2, _, e2, _, rfl⟩ := hl
      simp [aggCoreAggEnd]
  simp only [hpod]
  induction (List.range np) with
  | nil => rfl
  | cons p2 rest ih => simp [ih]

/-- No link of phase 2 (the switch-to-switch links) touches a host node. -/
theorem phase2Links_no_host (np kh i : Nat) :
    (phase2Links np kh).filterMap (otherEnd (.host i)) = [] := by
  apply List.filterMap_eq_nil_iff.mpr
  intro l hl
  simp only [phase2Links, List.mem_flatMap, List.mem_range, List.mem_append,
    List.mem_map] at hl
  obtain ⟨p2, _, hl2⟩ := hl
  rcases hl2 with ⟨a2, _, e2, _, rfl⟩ | ⟨a2, _, o, _, rfl⟩ <;> simp [otherEnd]

/-- Each host of the built graph is linked to exactly its creating edge
switch: its whole neighbor list is that one edge switch. -/
theorem neighborsOf_host_built (ns : List Node) (np kh p e h : Nat)
    (hp : p < np) (he : e < kh) (hh : h < kh) :
    neighborsOf { nodes := ns, edges := linksC np kh }
        (.host (p * (kh * kh) + e * kh + h)) = [.edge p e] := by
  show (linksC np kh).filterMap (otherEnd _) = _
  unfold linksC
  rw [List.filterMap_append, phase2Links_no_host, List.append_nil]
  unfold edgeHostLinksC
  rw [filterMap_flatMap]
  refine flatMap_eq_single' hp ?_ ?_
  · rw [filterMap_flatMap]
    refine flatMap_eq_single' he ?_ ?_
    · unfold hostLinksFor
      rw [List.filterMap_map]
      rw [show ((otherEnd (.host (p * (kh * kh) + e * kh + h))) ∘ fun h2 =>
          ({ u := .edge p e, v := .host (p * (kh * kh) + e * kh + h2),
             layer := .edge_host } : Link)) =
          fun h2 => if (p * (kh * kh) + e * kh) + h2 = p * (kh * kh) + e * kh + h
            then some (NodeId.edge p e) else none from ?_]
      · rw [filterMap_window (fun _ => NodeId.edge p e) kh (p * (kh * kh) + e * kh)
          (p * (kh * kh) + e * kh + h)]
        rw [if_pos (by omega)]
      · funext h2
        by_cases hcase : p * (kh * kh) + e * kh + h2 = p * (kh * kh) + e * kh + h
        · simp [otherEnd, Function.comp_def, hcase]
        · simp [otherEnd, Function.comp_def, hcase]
    · intro e2 he2 hne
      unfold hostLinksFor
      rw [List.filterMap_map]
      apply List.filterMap_eq_nil_iff.mpr
      intro h2 hh2
      have hh2' := List.mem_range.mp hh2
      simp only [Function.comp_def, otherEnd]
      rw [if_neg (by simp), if_neg]
      simp only [beq_iff_eq, NodeId.host.injEq]
      intro heq
      exact hne (decomp_unique he hh he2 hh2' heq).2.1
  · intro p2 hp2 hne
    rw [filterMap_flatMap]
    apply List.flatMap_eq_nil_iff.mpr
    intro e2 he2
    have he2' := List.mem_range.mp he2
    unfold hostLinksFor
    rw [List.filterMap_map]
    apply List.filterMap_eq_nil_iff.mpr
    intro h2 hh2
    have hh2' := List.mem_range.mp hh2
    simp only [Function.comp_def, otherEnd]
    rw [if_neg (by simp), if_neg]
    simp only [beq_iff_eq, NodeId.host.injEq]
    intro heq
    exact hne (decomp_unique he hh he2' hh2' heq).1

theorem filterMap_hostIdOf_hostNodesFor (kh pod e_idx start : Nat) :
    (hostNodesFor kh pod e_idx start).filterMap hostIdOf =
      (List.range kh).map (fun h2 => start + h2) := by
  unfold hostNodesFor
  rw [List.filterMap_map]
  exact filterMap_some_fn _ _

theorem flatMap_block0 (m n : Nat) :
    (List.range m).flatMap (fun i => (List.range n).map (fun j => i * n + j)) =
      List.range (m * n) := by
  have := flatMap_block m n 0
  simpa using this

/-- The hosts of the built node list are numbered `0, 1, 2, …` in
construction order. -/
theorem hostIdsInOrder_built (np kh nc : Nat) (es : List Link) :
    hostIdsInOrder { nodes := nodesC np kh nc, edges := es } =
      List.range (np * (kh * kh)) := by
  show (nodesC np kh nc).filterMap hostIdOf = _
  unfold nodesC
  rw [List.filterMap_append, List.filterMap_map]
  rw [show (List.range nc).filterMap (hostIdOf ∘ fun c_idx =>
      ({ id := .core c_idx, type := .core, pod := -1, edge_anchor := none } : Node)) = []
    from List.filterMap_eq_nil_iff.mpr (fun _ _ => rfl), List.nil_append]
  rw [filterMap_flatMap]
  have hpod : ∀ p : Nat, (podNodesC kh p).filterMap hostIdOf =
      (List.range kh).flatMap (fun e =>
        (List.range kh).map (fun h2 => p * (kh * kh) + e * kh + h2)) := by
    intro p
    unfold podNodesC
    rw [List.filterMap_append, List.filterMap_map]
    rw [show (List.range kh).filterMap (hostIdOf ∘ fun a_idx =>
        ({ id := .agg p a_idx, type := .agg, pod := (p : Int),
           edge_anchor := none } : Node)) = []
      from List.filterMap_eq_nil_iff.mpr (fun _ _ => rfl), List.nil_append]
    rw [filterMap_flatMap]
    simp only [List.filterMap_cons, hostIdOf, filterMap_hostIdOf_hostNodesFor]
  simp only [hpod]
  have hblock : ∀ p : Nat, (List.range kh).flatMap (fun e =>
      (List.range kh).map (fun h2 => p * (kh * kh) + e * kh + h2)) =
      (List.range (kh * kh)).map (fun j => p * (kh * kh) + j) := by
    intro p
    have := flatMap_block kh kh (p * (kh * kh))
    simpa [Nat.add_assoc] using this
  simp only [hblock]
  exact flatMap_block0 np (kh * kh)

/-- Node counts by type of the built node list. -/
theorem countType_built (np kh nc : Nat) (es : List Link) :
    countType { nodes := nodesC np kh nc, edges := es } .host = np * (kh * kh) ∧
    countType { nodes := nodesC np kh nc, edges := es } .edge = np * kh ∧
    countType { nodes := nodesC np kh nc, edges := es } .agg = np * kh ∧
    countType { nodes := nodesC np kh nc, edges := es } .core = nc := by
  have hmem : ∀ (t : NodeType) (p : Nat), p < np →
      (podNodesC kh p).countP (fun nd => nd.type == t) =
        (if NodeType.agg == t then kh else 0) +
        kh * ((if NodeType.edge == t then 1 else 0) +
              (if NodeType.host == t then kh else 0)) := by
    intro t p _
    unfold podNodesC
    rw [List.countP_append, List.countP_map]
    have haggs : (List.range kh).countP ((fun nd => nd.type == t) ∘ fun a_idx =>
        ({ id := .agg p a_idx, type := .agg, pod := (p : Int),
           edge_anchor := none } : Node)) = if NodeType.agg == t then kh else 0 := by
      cases hb : (NodeType.agg == t)
      · exact List.countP_eq_zero.mpr (fun a _ => by simp [Function.comp_def, hb])
      · rw [List.countP_eq_length.mpr (fun a _ => by simp [Function.comp_def, hb])]
        simp
    rw [haggs]
    congr 1
    apply countP_flatMap_const
    intro e _
    rw [List.countP_cons]
    have hhosts : (hostNodesFor kh p e (p * (kh * kh) + e * kh)).countP
        (fun nd => nd.type == t) = if NodeType.host == t then kh else 0 := by
      unfold hostNodesFor
      rw [List.countP_map]
      cases hb : (NodeType.host == t)
      · exact List.countP_eq_zero.mpr (fun a _ => by simp [Function.comp_def, hb])
      · rw [List.countP_eq_length.mpr (fun a _ => by simp [Function.comp_def, hb])]
        simp
    rw [hhosts]
    cases hb : (NodeType.edge == t) <;> simp [hb, Nat.add_comm]
  have hcores : ∀ t : NodeType,
      ((List.range nc).map (fun c_idx =>
        ({ id := .core c_idx, type := .core, pod := -1,
           edge_anchor := none } : Node))).countP (fun nd => nd.type == t) =
        if NodeType.core == t then nc else 0 := by
    intro t
    rw [List.countP_map]
    cases hb : (NodeType.core == t)
    · exact List.countP_eq_zero.mpr (fun a _ => by simp [Function.comp_def, hb])
    · rw [List.countP_eq_length.mpr (fun a _ => by simp [Function.comp_def, hb])]
      simp
  have hmain : ∀ t : NodeType,
      countType { nodes := nodesC np kh nc, edges := es } t =
        (if NodeType.core == t then nc else 0) +
        np * ((if NodeType.agg == t then kh else 0) +
          kh * ((if NodeType.edge == t then 1 else 0) +
                (if NodeType.host == t then kh else 0))) := by
    intro t
    show (nodesC np kh nc).countP _ = _
    unfold nodesC
    rw [List.countP_append, hcores t]
    congr 1
    exact countP_flatMap_const _ _ _ np (hmem t)
  refine ⟨?_, ?_, ?_, ?_⟩ <;> rw [hmain] <;> simp

/-- Characterization of `agg_core` links of the built graph: the striping
invariant as a membership property. -/
theorem hasLayerLink_aggCore_built (ns : List Node) (np kh p i c : Nat)
    (hp : p < np) (hi : i < kh) :
    (hasLayerLink { nodes := ns, edges := linksC np kh } .agg_core
      (.agg p i) (.core c) = true) ↔ (i * kh ≤ c ∧ c < (i + 1) * kh) := by
  unfold hasLayerLink
  rw [List.any_eq_true]
  constructor
  · rintro ⟨l, hl, hcond⟩
    simp only [linksC, edgeHostLinksC, hostLinksFor, phase2Links, List.mem_append,
      List.mem_flatMap, List.mem_range, List.mem_map] at hl
    rcases hl with ⟨p2, hp2, e2, he2, h2, hh2, rfl⟩ | ⟨p2, hp2, hl2⟩
    · simp [sameEnds] at hcond
    · rcases hl2 with ⟨a2, ha2, e2, he2, rfl⟩ | ⟨a2, ha2, o, ho, rfl⟩
      · simp [sameEnds] at hcond
      · simp only [sameEnds, Bool.and_eq_true, Bool.or_eq_true, beq_iff_eq,
          NodeId.agg.injEq, NodeId.core.injEq] at hcond
        obtain ⟨-, hcond⟩ := hcond
        rcases hcond with ⟨⟨hpp, haa⟩, hcc⟩ | ⟨hbad, -⟩
        · subst haa
          constructor
          · omega
          · rw [Nat.succ_mul]
            omega
        · exact absurd hbad (by simp)
  · rintro ⟨h1, h2⟩
    refine ⟨{ u := .agg p i, v := .core c, layer := .agg_core }, ?_, by simp [sameEnds]⟩
    simp only [linksC, edgeHostLinksC, hostLinksFor, phase2Links, List.mem_append,
      List.mem_flatMap, List.mem_range, List.mem_map]
    refine Or.inr ⟨p, hp, Or.inr ⟨i, hi, c - i * kh, ?_, ?_⟩⟩
    · rw [Nat.succ_mul] at h2
      omega
    · have hco : i * kh + (c - i * kh) = c := by omega
      simp [hco]

/-- The parameter record produced for a valid `k`. -/
def fatParams (kn : Nat) : FatTreeParams :=
  { k := kn, k_half := kn / 2, num_pods := kn,
    num_core_switches := (kn / 2) * (kn / 2), total_hosts := kn ^ 3 / 4 }

theorem calculate_fat_tree_params_ok (k : Int) (hk2 : k % 2 = 0) (hk : 2 ≤ k) :
    calculate_fat_tree_params k = .ok (fatParams k.toNat) := by
  unfold calculate_fat_tree_params fatParams
  rw [if_neg (by omega)]

theorem build_fat_tree_ok (k : Int) (hk2 : k % 2 = 0) (hk : 2 ≤ k) :
    build_fat_tree k = .ok (mkFatTree (fatParams k.toNat)) := by
  unfold build_fat_tree
  rw [calculate_fat_tree_params_ok k hk2 hk]

theorem total_hosts_eq (kn : Nat) (h2 : kn % 2 = 0) :
    kn * ((kn / 2) * (kn / 2)) = kn ^ 3 / 4 := by
  obtain ⟨m, rfl⟩ : ∃ m, kn = 2 * m := ⟨kn / 2, by omega⟩
  have hm : 2 * m / 2 = m := by omega
  rw [hm, show (2 * m) ^ 3 = 4 * (2 * m * (m * m)) from by ring,
    Nat.mul_div_cancel_left _ (by norm_num)]

/-! ### Failure-injection lemmas -/

theorem model_link_failures_nonpos {ρ : Type} (ops : RandomOps ρ) (G : Graph)
    (r : ℚ) (st : ρ) (hr : r ≤ 0) :
    model_link_failures ops G r st = (.ok (G, []), st) := by
  unfold model_link_failures
  rw [if_pos hr]

theorem num_to_fail_le (G : Graph) (r : ℚ) (hr : r ≤ 100) :
    num_to_fail G r ≤ G.edges.length := by
  unfold num_to_fail
  rw [Int.toNat_le, Int.ceil_le]
  push_cast
  have hlen : (0 : ℚ) ≤ (G.edges.length : ℚ) := by positivity
  have h1 : r / 100 ≤ 1 := (div_le_one (by norm_num)).mpr hr
  calc (G.edges.length : ℚ) * (r / 100)
      ≤ (G.edges.length : ℚ) * 1 := mul_le_mul_of_nonneg_left h1 hlen
  _ = (G.edges.length : ℚ) := mul_one _

theorem num_to_fail_gt (G : Graph) (r : ℚ) (hr : 100 < r) (hne : 0 < G.edges.length) :
    G.edges.length < num_to_fail G r := by
  unfold num_to_fail
  have hlen : (0 : ℚ) < (G.edges.length : ℚ) := by exact_mod_cast hne
  have hx : (G.edges.length : ℚ) < (G.edges.length : ℚ) * (r / 100) := by
    have h1 : (1 : ℚ) < r / 100 := (one_lt_div (by norm_num)).mpr hr
    nlinarith
  have hceil : (G.edges.length : ℤ) < Int.ceil ((G.edges.length : ℚ) * (r / 100)) := by
    rw [Int.lt_ceil]
    push_cast
    exact hx
  omega

theorem model_link_failures_run {ρ : Type} (ops : RandomOps ρ) (G : Graph)
    (r : ℚ) (st : ρ) (hr0 : ¬ r ≤ 0) (hle : num_to_fail G r ≤ G.edges.length) :
    model_link_failures ops G r st =
      (.ok ((ops.sampleLinks st G.edges (num_to_fail G r)).1.foldl
          (fun g l => remove_edge_checked g l.u l.v) G,
        (ops.sampleLinks st G.edges (num_to_fail G r)).1),
       (ops.sampleLinks st G.edges (num_to_fail G r)).2) := by
  simp only [model_link_failures]
  rw [if_neg hr0, if_pos hle]

theorem model_link_failures_overflow {ρ : Type} (ops : RandomOps ρ) (G : Graph)
    (r : ℚ) (st : ρ) (hr0 : ¬ r ≤ 0) (hgt : G.edges.length < num_to_fail G r) :
    model_link_failures ops G r st =
      (.error (.valueError ("Sample larger than population or is negative")), st) := by
  simp only [model_link_failures]
  rw [if_neg hr0, if_neg (by omega)]

/-! ### Orchestrator refinement -/

/-- The outcome of one trial does not depend on the incoming generator
state: the trial reseeds from the run index before any random use. -/
theorem trialFull_fst {ρ : Type} (ops : RandomOps ρ) (k : Int) (rate : ℚ)
    (pairs : List (NodeId × NodeId)) (run : Nat) (st : ρ) :
    (trialFull ops k rate pairs run st).1 = trial ops k rate pairs run := by
  unfold trialFull trial
  rcases build_fat_tree k with e | G
  · rfl
  · show (match model_link_failures ops G rate (ops.seed run) with
        | (.error e, st2) => ((.error e : Except PyError (ℚ × ℚ)), st2)
        | (.ok (G1, _failed), st2) => ((calculate_avg_path_length G1 pairs).1, st2)).1
      = (match model_link_failures ops G rate (ops.seed run) with
        | (.error e, _) => (.error e : Except PyError (ℚ × ℚ))
        | (.ok (G1, _failed), _) => (calculate_avg_path_length G1 pairs).1)
    rcases model_link_failures ops G rate (ops.seed run) with ⟨mres, st2⟩
    rcases mres with e | G1f
    · rfl
    · obtain ⟨G1, _failed⟩ := G1f
      rfl

theorem runLoop_eq {ρ : Type} (ops : RandomOps ρ) (k : Int) (rate : ℚ)
    (pairs : List (NodeId × NodeId)) :
    ∀ (runs : List Nat) (st : ρ) (a b : ℚ),
    (runLoop ops k rate pairs runs st a b).1 =
      match sumTrials (trial ops k rate pairs) runs with
      | .error e => .error e
      | .ok s => .ok (a + s.1, b + s.2) := by
  intro runs
  induction runs with
  | nil => intro st a b; simp [runLoop, sumTrials]
  | cons run rest ih =>
    intro st a b
    rw [runLoop, sumTrials]
    have htf := trialFull_fst ops k rate pairs run st
    rcases htf2 : trialFull ops k rate pairs run st with ⟨tres, st2⟩
    rw [htf2] at htf
    rw [← htf]
    rcases tres with e | lr
    · rfl
    · show (runLoop ops k rate pairs rest st2 (a + lr.1) (b + lr.2)).1 = _
      rw [ih]
      rcases sumTrials (trial ops k rate pairs) rest with e | s
      · rfl
      · show _ = Except.ok (a + (lr.1 + s.1), b + (lr.2 + s.2))
        rw [← Rat.add_assoc, ← Rat.add_assoc]

set_option maxRecDepth 4000 in
theorem rateLoop_eq {ρ : Type} (ops : RandomOps ρ) (k : Int)
    (pairs : List (NodeId × NodeId)) (nRuns : Nat) :
    ∀ (rates : List ℚ) (st : ρ) (res : ExpResults),
    (rateLoop ops k pairs nRuns rates st res).1 =
      match specRates ops k pairs nRuns rates with
      | .error e => .error e
      | .ok r => .ok { fail_rate := res.fail_rate ++ r.fail_rate,
                       avg_path := res.avg_path ++ r.avg_path,
                       reachability := res.reachability ++ r.reachability } := by
  intro rates
  induction rates with
  | nil => intro st res; simp [rateLoop, specRates]
  | cons rate rest ih =>
    intro st res
    rw [rateLoop, specRates]
    have hrl := runLoop_eq ops k rate pairs (List.range nRuns) st 0 0
    rcases hr : runLoop ops k rate pairs (List.range nRuns) st 0 0 with ⟨res1, st1⟩
    rw [hr] at hrl
    rcases hs : sumTrials (trial ops k rate pairs) (List.range nRuns) with e | s
    · rw [hs] at hrl
      simp only at hrl
      subst hrl
      rfl
    · rw [hs] at hrl
      simp only [zero_add] at hrl
      subst hrl
      show (if nRuns = 0 then ((Except.error PyError.zeroDivision : Except PyError ExpResults), st1)
          else rateLoop ops k pairs nRuns rest st1
            { fail_rate := res.fail_rate ++ [rate],
              avg_path := res.avg_path ++ [s.1 / (nRuns : ℚ)],
              reachability := res.reachability ++ [s.2 / (nRuns : ℚ)] }).1
        = match (if nRuns = 0 then (Except.error PyError.zeroDivision : Except PyError ExpResults)
            else (match specRates ops k pairs nRuns rest with
              | .error e => .error e
              | .ok res2 => .ok { fail_rate := rate :: res2.fail_rate,
                                  avg_path := s.1 / (nRuns : ℚ) :: res2.avg_path,
                                  reachability := s.2 / (nRuns : ℚ) :: res2.reachability })) with
          | .error e => .error e
          | .ok r => .ok { fail_rate := res.fail_rate ++ r.fail_rate,
                           avg_path := res.avg_path ++ r.avg_path,
                           reachability := res.reachability ++ r.reachability }
      by_cases hn : nRuns = 0
      · rw [if_pos hn, if_pos hn]
      · rw [if_neg hn, if_neg hn]
        rw [ih]
        rcases specRates ops k pairs nRuns rest with e | r2
        · rfl
        · show Except.ok _ = Except.ok _
          simp [List.append_assoc]

theorem run_experiment_cycle_refines {ρ : Type} (ops : RandomOps ρ) (k : Int)
    (fail_rates : List ℚ) (nRuns nSamples : Nat) (st0 : ρ) :
    (run_experiment_cycle ops k fail_rates nRuns nSamples st0).1 =
      run_experiment_spec ops k fail_rates nRuns nSamples := by
  simp only [run_experiment_cycle, run_experiment_spec, fixedSampleSet]
  rcases calculate_fat_tree_params k with e | params
  · rfl
  · simp only [List.length_map, List.length_range]
    have hbase := rateLoop_eq ops k
    by_cases hc : params.total_hosts ≤ 16
    · rw [if_pos hc, if_pos hc]
      rw [rateLoop_eq]
      rcases specRates ops k
          (all_possible_pairs ((List.range params.total_hosts).map NodeId.host))
          nRuns fail_rates with e | r
      · rfl
      · show Except.ok _ = Except.ok _
        simp
    · rw [if_neg hc, if_neg hc]
      rw [rateLoop_eq]
      rcases specRates ops k
          ((ops.samplePairs (ops.seed 1000)
            (all_possible_pairs ((List.range params.total_hosts).map NodeId.host))
            (min nSamples
              (all_possible_pairs
                ((List.range params.total_hosts).map NodeId.host)).length)).1)
          nRuns fail_rates with e | r
      · rfl
      · show Except.ok _ = Except.ok _
        simp

/-! ### Removal counting and the analyzer contract -/

/-- Under the `random.sample` contract, removing the sampled links removes
them and nothing else: the survivor predicate of the removal fold agrees
with non-membership in the sample. -/
theorem removal_pred_iff (L R : List Link)
    (hkey : ∀ l1 ∈ L, ∀ l2 ∈ L, sameEnds l1 l2.u l2.v = true → l1 = l2)
    (hsub : ∀ l ∈ R, l ∈ L) (e : Link) (he : e ∈ L) :
    (R.all (fun l => !sameEnds e l.u l.v) = true) ↔ e ∉ R := by
  rw [List.all_eq_true]
  constructor
  · intro h hmem
    have h2 := h e hmem
    simp [sameEnds_self] at h2
  · intro hnmem l hl
    cases hs : sameEnds e l.u l.v
    · rfl
    · exact absurd (by rw [hkey e he l (hsub l hl) hs]; exact hl) hnmem

theorem countP_not_mem (L R : List Link) (hndL : L.Nodup) (hndR : R.Nodup)
    (hsub : ∀ l ∈ R, l ∈ L) :
    L.countP (fun e => !decide (e ∈ R)) = L.length - R.length := by
  have hsplit := List.length_eq_countP_add_countP (fun e => decide (e ∈ R)) L
  have hc : L.countP (fun a => decide ¬(decide (a ∈ R) = true)) =
      L.countP (fun e => !decide (e ∈ R)) :=
    List.countP_congr (fun x _ => by simp)
  have hcnt : L.countP (fun e => decide (e ∈ R)) = R.length := by
    have h1 : L.countP (fun e => decide (e ∈ R)) =
        (L.filter (fun e => decide (e ∈ R))).length :=
      List.countP_eq_length_filter _ _
    have h2 : (L.filter (fun e => decide (e ∈ R))).toFinset = R.toFinset := by
      apply Finset.ext
      intro a
      simp only [List.mem_toFinset, List.mem_filter, decide_eq_true_eq]
      constructor
      · rintro ⟨-, h⟩
        exact h
      · intro h
        exact ⟨hsub a h, h⟩
    have h3 : (L.filter (fun e => decide (e ∈ R))).Nodup := hndL.filter _
    calc L.countP (fun e => decide (e ∈ R))
        = (L.filter (fun e => decide (e ∈ R))).length := h1
    _ = (L.filter (fun e => decide (e ∈ R))).toFinset.card :=
        (List.toFinset_card_of_nodup h3).symm
    _ = R.toFinset.card := by rw [h2]
    _ = R.length := List.toFinset_card_of_nodup hndR
  omega

/-- `calculate_avg_path_length` when every queried endpoint is a node of the
graph: no exception escapes, and the two returned statistics are exactly the
specification formulas — the average over the reachable pairs (0 when none
are reachable) and `(reachable / total) · 100` (0 for an empty list). -/
theorem calculate_avg_path_length_ok (G : Graph) (pairs : List (NodeId × NodeId))
    (h : ∀ pr ∈ pairs, pr.1 ∈ nodeIds G ∧ pr.2 ∈ nodeIds G) :
    calculate_avg_path_length G pairs =
      (.ok (if reachCount G pairs = 0 then 0
              else (reachSum G pairs : ℚ) / (reachCount G pairs : ℚ),
            if pairs.length = 0 then 0
              else 100 * (reachCount G pairs : ℚ) / (pairs.length : ℚ)), G) := by
  have hloop := analyzeLoop_eq G pairs 0 0 (fun pr hpr =>
    shortest_path_length_no_nodeNotFound G pr.1 pr.2 (h pr hpr).1 (h pr hpr).2)
  simp only [Nat.zero_add] at hloop
  unfold calculate_avg_path_length
  by_cases hlen : pairs.length = 0
  · have hnil : pairs = [] := List.length_eq_zero.mp hlen
    subst hnil
    simp [reachCount, reachSum]
  · rw [if_neg hlen, hloop]
    show (if reachCount G pairs = 0
        then ((Except.ok ((0 : ℚ), (0 : ℚ)) : Except PyError (ℚ × ℚ)), G)
        else (Except.ok ((reachSum G pairs : ℚ) / (reachCount G pairs : ℚ),
            (reachCount G pairs : ℚ) / (pairs.length : ℚ) * 100), G)) = _
    by_cases hcnt : reachCount G pairs = 0
    · rw [if_pos hcnt, if_pos hcnt, if_neg hlen]
      simp [hcnt]
    · rw [if_neg hcnt, if_neg hcnt, if_neg hlen]
      have harr : (reachCount G pairs : ℚ) / (pairs.length : ℚ) * 100 =
          100 * (reachCount G pairs : ℚ) / (pairs.length : ℚ) := by
        ring
      rw [harr]

/-! ### Concrete instances used by witnesses and counterexamples -/

deriving instance DecidableEq for Except

/-- The `pod` attribute of node `x` of `G`. -/
def podOf (G : Graph) (x : NodeId) : Option Int :=
  (G.nodes.find? (fun nd => nd.id == x)).map Node.pod

/-- The `edge_anchor` attribute of node `x` of `G`. -/
def anchorOf (G : Graph) (x : NodeId) : Option NodeId :=
  (G.nodes.find? (fun nd => nd.id == x)).bind Node.edge_anchor

/-- The graph built for `k = 4`. -/
def graph4 : Graph := mkFatTree (fatParams 4)

/-- A deterministic instance of the random model: `random.sample` returns
the first `n` elements of the population (a valid without-replacement
sample). -/
def takeOps : RandomOps Unit where
  seed := fun _ => ()
  samplePairs := fun _ l n => (l.take n, ())
  sampleLinks := fun _ l n => (l.take n, ())

/-- A two-node, one-link graph for concrete failure-injection runs. -/
def G2 : Graph :=
  { nodes := [{ id := .edge 0 0, type := .edge, pod := 0, edge_anchor := none },
              { id := .host 0, type := .host, pod := 0, edge_anchor := some (.edge 0 0) }],
    edges := [{ u := .edge 0 0, v := .host 0, layer := .edge_host }] }

/-- The empty graph. -/
def emptyGraph : Graph := { nodes := [], edges := [] }

theorem num_to_fail_G2_100 : num_to_fail G2 100 = 1 := by
  unfold num_to_fail
  rw [show G2.edges.length = 1 from rfl]
  rw [show ((1 : ℕ) : ℚ) * ((100 : ℚ) / 100) = 1 from by push_cast; norm_num]
  rw [Int.ceil_one]
  rfl

/-! ### The claims -/

/-- C1: for every even `k ≥ 2`, in the graph returned by `build(k)` the
`i`-th aggregation switch of each pod is linked by an `agg_core` link to
exactly the core switches with global index in `[i·(k/2), (i+1)·(k/2))`;
its core-neighbor list is exactly that contiguous block (so it has exactly
`k/2` core neighbors), and every core switch `c` has exactly `k`
aggregation neighbors, one per pod (pod `p` contributing its switch
`c / (k/2)`). -/
theorem C1_striping_invariant (k : Int) (hk2 : k % 2 = 0) (hk : 2 ≤ k) :
    ∃ G, build_fat_tree k = .ok G ∧
      (∀ p i c : Nat, p < k.toNat → i < k.toNat / 2 →
        ((hasLayerLink G .agg_core (.agg p i) (.core c) = true) ↔
          (i * (k.toNat / 2) ≤ c ∧ c < (i + 1) * (k.toNat / 2)))) ∧
      (∀ p i : Nat, p < k.toNat → i < k.toNat / 2 →
        coreNeighborsOfAgg G p i =
          (List.range (k.toNat / 2)).map (fun o => i * (k.toNat / 2) + o) ∧
        (coreNeighborsOfAgg G p i).length = k.toNat / 2) ∧
      (∀ c : Nat, c < (k.toNat / 2) * (k.toNat / 2) →
        aggNeighborsOfCore G c =
          (List.range k.toNat).map (fun p => (p, c / (k.toNat / 2))) ∧
        (aggNeighborsOfCore G c).length = k.toNat) := by
  have hkh : 0 < k.toNat / 2 := by omega
  refine ⟨mkFatTree (fatParams k.toNat), build_fat_tree_ok k hk2 hk, ?_, ?_, ?_⟩
  · intro p i c hp hi
    rw [mkFatTree_eq]
    exact hasLayerLink_aggCore_built _ _ _ p i c hp hi
  · intro p i hp hi
    rw [mkFatTree_eq]
    simp only [fatParams]
    refine ⟨coreNeighborsOfAgg_built _ _ _ p i hp hi, ?_⟩
    rw [coreNeighborsOfAgg_built _ _ _ p i hp hi]
    simp
  · intro c hc
    rw [mkFatTree_eq]
    simp only [fatParams]
    refine ⟨aggNeighborsOfCore_built _ _ _ c hkh hc, ?_⟩
    rw [aggNeighborsOfCore_built _ _ _ c hkh hc]
    simp

/-- Witness for C1 at `k = 4`: aggregation switch 1 of pod 0 is linked to
exactly the core block `[2, 3]`. -/
theorem C1_striping_invariant_witness :
    ∃ G, build_fat_tree 4 = .ok G ∧ coreNeighborsOfAgg G 0 1 = [2, 3] := by
  obtain ⟨G, hb, -, hcn, -⟩ := C1_striping_invariant 4 (by decide) (by decide)
  refine ⟨G, hb, ?_⟩
  rw [(hcn 0 1 (by decide) (by decide)).1]
  decide

/-- C2: for every even `k ≥ 2`, `build(k)` yields exactly `k³/4` hosts,
`k·(k/2)` edge switches, `k·(k/2)` aggregation switches and `(k/2)²` core
switches; host identifiers appear globally sequentially in construction
order (`0, 1, 2, …`), and each host is linked to exactly one switch, an
edge switch (its entire neighbor list is one edge switch). -/
theorem C2_build_counts (k : Int) (hk2 : k % 2 = 0) (hk : 2 ≤ k) :
    ∃ G, build_fat_tree k = .ok G ∧
      countType G .host = k.toNat ^ 3 / 4 ∧
      countType G .edge = k.toNat * (k.toNat / 2) ∧
      countType G .agg = k.toNat * (k.toNat / 2) ∧
      countType G .core = (k.toNat / 2) ^ 2 ∧
      hostIdsInOrder G = List.range (k.toNat ^ 3 / 4) ∧
      (∀ i, i < k.toNat ^ 3 / 4 → ∃ p e, p < k.toNat ∧ e < k.toNat / 2 ∧
        neighborsOf G (.host i) = [.edge p e]) := by
  have hkn2 : k.toNat % 2 = 0 := by omega
  have hkh : 0 < k.toNat / 2 := by omega
  have htot := total_hosts_eq k.toNat hkn2
  obtain ⟨hhost, hedge, hagg, hcore⟩ :=
    countType_built (fatParams k.toNat).num_pods (fatParams k.toNat).k_half
      (fatParams k.toNat).num_core_switches (linksC (fatParams k.toNat).num_pods
        (fatParams k.toNat).k_half)
  refine ⟨mkFatTree (fatParams k.toNat), build_fat_tree_ok k hk2 hk,
    ?_, ?_, ?_, ?_, ?_, ?_⟩ <;> rw [mkFatTree_eq]
  · rw [hhost]
    simp only [fatParams]
    exact htot
  · rw [hedge]
    simp [fatParams]
  · rw [hagg]
    simp [fatParams]
  · rw [hcore]
    simp [fatParams, pow_two]
  · rw [hostIdsInOrder_built]
    simp only [fatParams]
    rw [htot]
  · simp only [fatParams]
    intro i hi
    rw [← htot] at hi
    have hkk : 0 < (k.toNat / 2) * (k.toNat / 2) := Nat.mul_pos hkh hkh
    have hp0 : i / ((k.toNat / 2) * (k.toNat / 2)) < k.toNat :=
      (Nat.div_lt_iff_lt_mul hkk).mpr hi
    have he0 : i / (k.toNat / 2) % (k.toNat / 2) < k.toNat / 2 := Nat.mod_lt _ hkh
    have hh0 : i % (k.toNat / 2) < k.toNat / 2 := Nat.mod_lt _ hkh
    refine ⟨i / ((k.toNat / 2) * (k.toNat / 2)), i / (k.toNat / 2) % (k.toNat / 2),
      hp0, he0, ?_⟩
    have h1 := Nat.div_add_mod i (k.toNat / 2)
    have h2 := Nat.div_add_mod (i / (k.toNat / 2)) (k.toNat / 2)
    have hdecomp : (i / ((k.toNat / 2) * (k.toNat / 2))) * ((k.toNat / 2) * (k.toNat / 2))
        + (i / (k.toNat / 2) % (k.toNat / 2)) * (k.toNat / 2)
        + i % (k.toNat / 2) = i := by
      calc (i / ((k.toNat / 2) * (k.toNat / 2))) * ((k.toNat / 2) * (k.toNat / 2))
            + (i / (k.toNat / 2) % (k.toNat / 2)) * (k.toNat / 2) + i % (k.toNat / 2)
          = ((k.toNat / 2) * (i / (k.toNat / 2) / (k.toNat / 2))
              + i / (k.toNat / 2) % (k.toNat / 2)) * (k.toNat / 2)
            + i % (k.toNat / 2) := by
            rw [← Nat.div_div_eq_div_mul]
            ring
      _ = (i / (k.toNat / 2)) * (k.toNat / 2) + i % (k.toNat / 2) := by rw [h2]
      _ = i := by
            rw [Nat.mul_comm (i / (k.toNat / 2)) (k.toNat / 2)]
            exact h1
    have hn := neighborsOf_host_built
      (nodesC k.toNat (k.toNat / 2) ((k.toNat / 2) * (k.toNat / 2)))
      k.toNat (k.toNat / 2)
      (i / ((k.toNat / 2) * (k.toNat / 2))) (i / (k.toNat / 2) % (k.toNat / 2))
      (i % (k.toNat / 2)) hp0 he0 hh0
    rw [hdecomp] at hn
    exact hn

/-- Witness for C2 at `k = 4`: 16 hosts numbered `0..15` in order. -/
theorem C2_build_counts_witness :
    ∃ G, build_fat_tree 4 = .ok G ∧ countType G .host = 16 ∧
      hostIdsInOrder G = List.range 16 := by
  obtain ⟨G, hb, hh, -, -, -, hord, -⟩ := C2_build_counts 4 (by decide) (by decide)
  exact ⟨G, hb, by rw [hh]; decide, by rw [hord]; decide⟩

/-- C3: for `0 < rate ≤ 100`, under the `random.sample` contract (the
sample is a duplicate-free selection from the population of the requested
size), `model_link_failures` removes exactly the
`ceil(total_links · rate / 100)` sampled links — no more, no fewer — from
the graph, returns exactly the sampled list, and leaves the node set
untouched. -/
theorem C3_injection_removes_sample {ρ : Type} (ops : RandomOps ρ) (G : Graph)
    (r : ℚ) (st : ρ) (hr0 : 0 < r) (hr100 : r ≤ 100)
    (hkey : ∀ l1 ∈ G.edges, ∀ l2 ∈ G.edges, sameEnds l1 l2.u l2.v = true → l1 = l2)
    (hnd : G.edges.Nodup)
    (hlen : (ops.sampleLinks st G.edges (num_to_fail G r)).1.length = num_to_fail G r)
    (hsub : ∀ l ∈ (ops.sampleLinks st G.edges (num_to_fail G r)).1, l ∈ G.edges)
    (hsnd : (ops.sampleLinks st G.edges (num_to_fail G r)).1.Nodup) :
    ∃ G1, model_link_failures ops G r st =
        (.ok (G1, (ops.sampleLinks st G.edges (num_to_fail G r)).1),
         (ops.sampleLinks st G.edges (num_to_fail G r)).2) ∧
      G1.nodes = G.nodes ∧
      (∀ l, l ∈ G1.edges ↔
        (l ∈ G.edges ∧ l ∉ (ops.sampleLinks st G.edges (num_to_fail G r)).1)) ∧
      G1.edges.length = G.edges.length - num_to_fail G r := by
  have hr0' : ¬ r ≤ 0 := not_le.mpr hr0
  have hle := num_to_fail_le G r hr100
  refine ⟨((ops.sampleLinks st G.edges (num_to_fail G r)).1).foldl
      (fun g l => remove_edge_checked g l.u l.v) G,
    model_link_failures_run ops G r st hr0' hle,
    (foldl_remove_edges _ G).2, ?_, ?_⟩
  · intro l
    rw [(foldl_remove_edges _ G).1, List.mem_filter]
    constructor
    · rintro ⟨hmem, hpred⟩
      exact ⟨hmem, (removal_pred_iff G.edges _ hkey hsub l hmem).mp hpred⟩
    · rintro ⟨hmem, hnot⟩
      exact ⟨hmem, (removal_pred_iff G.edges _ hkey hsub l hmem).mpr hnot⟩
  · rw [(foldl_remove_edges _ G).1, ← List.countP_eq_length_filter]
    have hcong : ∀ e ∈ G.edges,
        ((ops.sampleLinks st G.edges (num_to_fail G r)).1.all
          (fun l => !sameEnds e l.u l.v) = true) ↔
        ((!decide (e ∈ (ops.sampleLinks st G.edges (num_to_fail G r)).1)) = true) := by
      intro e he
      rw [removal_pred_iff G.edges _ hkey hsub e he]
      simp
    rw [List.countP_congr hcong, countP_not_mem G.edges _ hnd hsnd hsub, hlen]

/-- Witness for C3 on a one-link graph at rate 100 with the take-prefix
sampler. -/
theorem C3_injection_removes_sample_witness :
    ∃ G1, model_link_failures takeOps G2 100 () =
        (.ok (G1, (takeOps.sampleLinks () G2.edges (num_to_fail G2 100)).1),
         (takeOps.sampleLinks () G2.edges (num_to_fail G2 100)).2) ∧
      G1.nodes = G2.nodes ∧
      G1.edges.length = G2.edges.length - num_to_fail G2 100 := by
  obtain ⟨G1, h1, h2, -, h4⟩ := C3_injection_removes_sample takeOps G2 100 ()
    (by norm_num) (by norm_num) (by decide) (by decide)
    (by rw [num_to_fail_G2_100]; decide)
    (by rw [num_to_fail_G2_100]; decide)
    (by rw [num_to_fail_G2_100]; decide)
  exact ⟨G1, h1, h2, h4⟩

/-- C4 counterexample: at rate 200 on a graph with one link, the source
does not clamp — `random.sample` is asked for 2 of 1 links and raises
`ValueError`, so the call fails instead of removing all links. -/
theorem C4_counterexample_rate_over_100_fails :
    model_link_failures takeOps G2 200 () =
      (.error (.valueError ("Sample larger than population or is negative")), ()) := by
  apply model_link_failures_overflow
  · norm_num
  · have hntf : num_to_fail G2 200 = 2 := by
      unfold num_to_fail
      rw [show G2.edges.length = 1 from rfl]
      rw [show ((1 : ℕ) : ℚ) * ((200 : ℚ) / 100) = 2 from by push_cast; norm_num]
      rw [show Int.ceil ((2 : ℚ)) = 2 from by norm_num]
      rfl
    rw [hntf]
    decide

/-- C4 (amended): for every rate above 100 on a graph with at least one
link, `num_to_fail` exceeds the total link count and `model_link_failures`
raises `ValueError` from `random.sample` — there is no clamping — leaving
the random state as it was. -/
theorem C4_amended_overflow_raises {ρ : Type} (ops : RandomOps ρ) (G : Graph)
    (r : ℚ) (st : ρ) (hr : 100 < r) (hne : 0 < G.edges.length) :
    model_link_failures ops G r st =
      (.error (.valueError ("Sample larger than population or is negative")), st) :=
  model_link_failures_overflow ops G r st (by linarith) (num_to_fail_gt G r hr hne)

/-- Witness for the amended C4 at rate 200 on a one-link graph. -/
theorem C4_amended_overflow_raises_witness :
    model_link_failures takeOps G2 200 () =
      (.error (.valueError ("Sample larger than population or is negative")), ()) :=
  C4_amended_overflow_raises takeOps G2 200 () (by norm_num) (by decide)

/-- C5: for every rate `≤ 0`, `model_link_failures` returns the empty list
and leaves the graph (nodes, links and attributes) and the random state
entirely unchanged. -/
theorem C5_nonpositive_rate_noop {ρ : Type} (ops : RandomOps ρ) (G : Graph)
    (r : ℚ) (st : ρ) (hr : r ≤ 0) :
    model_link_failures ops G r st = (.ok (G, []), st) :=
  model_link_failures_nonpos ops G r st hr

/-- Witness for C5 at rate 0. -/
theorem C5_nonpositive_rate_noop_witness :
    model_link_failures takeOps G2 0 () = (.ok (G2, []), ()) :=
  C5_nonpositive_rate_noop takeOps G2 0 () (by norm_num)

/-- C6 counterexample: on a pair whose endpoints are not nodes of the
graph, `nx.shortest_path_length` raises `NodeNotFound`, which the
`except NetworkXNoPath` clause does not catch — the computation aborts
with an error instead of returning statistics. -/
theorem C6_counterexample_missing_endpoint_aborts :
    (calculate_avg_path_length emptyGraph [(.host 0, .host 1)]).1 =
      .error .nodeNotFound := by decide

/-- C6 (amended): for every graph and every pair list whose endpoints are
all nodes of the graph, the analyzer aborts on no pair — a disconnected
pair is skipped from the sum and counted against reachability — and
returns exactly `avg = Σ hops over reachable pairs / #reachable` (0 when
none are reachable) and `reach = 100 · #reachable / #pairs` (0 for the
empty list), leaving the graph unchanged; the reachability lies in
`[0, 100]`. -/
theorem C6_amended_analyzer_formulas (G : Graph)
    (host_pairs : List (NodeId × NodeId))
    (h : ∀ pr ∈ host_pairs, pr.1 ∈ nodeIds G ∧ pr.2 ∈ nodeIds G) :
    calculate_avg_path_length G host_pairs =
      (.ok (if reachCount G host_pairs = 0 then 0
              else (reachSum G host_pairs : ℚ) / (reachCount G host_pairs : ℚ),
            if host_pairs.length = 0 then 0
              else 100 * (reachCount G host_pairs : ℚ) / (host_pairs.length : ℚ)), G) ∧
    (0 : ℚ) ≤ (if host_pairs.length = 0 then (0 : ℚ)
              else 100 * (reachCount G host_pairs : ℚ) / (host_pairs.length : ℚ)) ∧
    (if host_pairs.length = 0 then (0 : ℚ)
              else 100 * (reachCount G host_pairs : ℚ) / (host_pairs.length : ℚ)) ≤ 100 := by
  refine ⟨calculate_avg_path_length_ok G host_pairs h, ?_, ?_⟩
  · by_cases hlen : host_pairs.length = 0
    · rw [if_pos hlen]
    · rw [if_neg hlen]
      positivity
  · by_cases hlen : host_pairs.length = 0
    · rw [if_pos hlen]
      norm_num
    · rw [if_neg hlen]
      have hcle : reachCount G host_pairs ≤ host_pairs.length :=
        List.countP_le_length _
      have hlpos : (0 : ℚ) < (host_pairs.length : ℚ) := by
        exact_mod_cast Nat.pos_of_ne_zero hlen
      rw [div_le_iff₀ hlpos]
      have : (reachCount G host_pairs : ℚ) ≤ (host_pairs.length : ℚ) := by
        exact_mod_cast hcle
      nlinarith

/-- Witness for the amended C6: one reachable and one pair of identical
endpoints on the two-node graph. -/
theorem C6_amended_analyzer_formulas_witness :
    calculate_avg_path_length G2 [(.host 0, .edge 0 0)] =
      (.ok (if reachCount G2 [(.host 0, .edge 0 0)] = 0 then 0
              else (reachSum G2 [(.host 0, .edge 0 0)] : ℚ) /
                (reachCount G2 [(.host 0, .edge 0 0)] : ℚ),
            if ([((.host 0 : NodeId), (.edge 0 0 : NodeId))].length) = 0 then 0
              else 100 * (reachCount G2 [(.host 0, .edge 0 0)] : ℚ) /
                (([((.host 0 : NodeId), (.edge 0 0 : NodeId))].length : ℚ))), G2) := by
  exact (C6_amended_analyzer_formulas G2 [(.host 0, .edge 0 0)] (by decide)).1

/-- C7: for every integer `k` that is odd or below 2,
`calculate_fat_tree_params` raises `ValueError` and `build_fat_tree`
terminates with `sys.exit(1)`: no graph is produced and no default `k` is
substituted. -/
theorem C7_invalid_k_fails (k : Int) (hk : k % 2 ≠ 0 ∨ k < 2) :
    calculate_fat_tree_params k =
      .error (.valueError ("k must be an even number greater than or equal to 2.")) ∧
    build_fat_tree k = .error (.systemExit 1) := by
  have h1 : calculate_fat_tree_params k =
      .error (.valueError ("k must be an even number greater than or equal to 2.")) := by
    unfold calculate_fat_tree_params
    rw [if_pos hk]
  refine ⟨h1, ?_⟩
  unfold build_fat_tree
  rw [h1]

/-- Witness for C7 at `k = 3`. -/
theorem C7_invalid_k_fails_witness :
    calculate_fat_tree_params 3 =
      .error (.valueError ("k must be an even number greater than or equal to 2.")) ∧
    build_fat_tree 3 = .error (.systemExit 1) :=
  C7_invalid_k_fails 3 (by decide)

/-- C8 counterexample: hosts 0 and 4 of `build(4)` are in different pods,
yet their shortest path has 6 hops
(host–edge–agg–core–agg–edge–host), not the 4 the claim states. -/
theorem C8_counterexample_interpod_distance :
    build_fat_tree 4 = .ok graph4 ∧
    podOf graph4 (.host 0) ≠ podOf graph4 (.host 4) ∧
    shortest_path_length graph4 (.host 0) (.host 4) = .ok 6 ∧
    (Except.ok 6 : Except PyError Nat) ≠ .ok 4 := by decide

set_option maxRecDepth 100000 in
/-- C8 (amended): `build(4)` yields 16 hosts, 8 edge switches, 8
aggregation switches and 4 core switches; every ordered pair of distinct
hosts is reachable (the graph is fully connected), with shortest path
exactly 2 hops for hosts sharing an edge switch, 4 hops for hosts in the
same pod on different edge switches, and 6 hops for hosts in different
pods. -/
theorem C8_amended_k4_structure :
    build_fat_tree 4 = .ok graph4 ∧
    countType graph4 .host = 16 ∧ countType graph4 .edge = 8 ∧
    countType graph4 .agg = 8 ∧ countType graph4 .core = 4 ∧
    (∀ i, i < 16 → ∀ j, j < 16 → i ≠ j →
      shortest_path_length graph4 (.host i) (.host j) =
        .ok (if anchorOf graph4 (.host i) = anchorOf graph4 (.host j) then 2
             else if podOf graph4 (.host i) = podOf graph4 (.host j) then 4
             else 6)) := by decide

/-- C9: the host-pair sample set of `run_experiment_cycle` is constructed
exactly once, before any trial — exhaustively when there are at most 16
hosts, otherwise as a `random.sample` of `min(maxSamplePairs, totalPairs)`
from the source seeded with the dedicated sampling seed 1000 — and the
whole experiment equals its specification form in which that one fixed
list is passed unchanged to every rate and every trial, each trial
reseeding from its run index alone. -/
theorem C9_fixed_sample_set {ρ : Type} (ops : RandomOps ρ) (k : Int)
    (fail_rates : List ℚ) (nRuns nSamples : Nat) (st0 : ρ) :
    (run_experiment_cycle ops k fail_rates nRuns nSamples st0).1 =
      run_experiment_spec ops k fail_rates nRuns nSamples ∧
    (∀ total_hosts maxPairs : Nat, total_hosts ≤ 16 →
      fixedSampleSet ops total_hosts maxPairs =
        all_possible_pairs ((List.range total_hosts).map NodeId.host)) ∧
    (∀ total_hosts maxPairs : Nat, ¬ total_hosts ≤ 16 →
      fixedSampleSet ops total_hosts maxPairs =
        (ops.samplePairs (ops.seed 1000)
          (all_possible_pairs ((List.range total_hosts).map NodeId.host))
          (min maxPairs
            (all_possible_pairs ((List.range total_hosts).map NodeId.host)).length)).1) := by
  refine ⟨run_experiment_cycle_refines ops k fail_rates nRuns nSamples st0, ?_, ?_⟩
  · intro th mp h
    simp [fixedSampleSet, h]
  · intro th mp h
    simp [fixedSampleSet, h]

/-- C10: `calculate_avg_path_length` is a pure observer — the graph it
hands back (node list, link list and all attributes) is the one it was
given, on every input, exceptions included. -/
theorem C10_analyzer_pure_observer (G : Graph)
    (host_pairs : List (NodeId × NodeId)) :
    (calculate_avg_path_length G host_pairs).2 = G := by
  unfold calculate_avg_path_length
  by_cases hlen : host_pairs.length = 0
  · rw [if_pos hlen]
  · rw [if_neg hlen]
    have hg := analyzeLoop_graph host_pairs G 0 0
    rcases ha : analyzeLoop host_pairs G 0 0 with ⟨r, G1⟩
    rw [ha] at hg
    simp only at hg
    rcases r with e | tc
    · exact hg
    · obtain ⟨t, c⟩ := tc
      show (if c = 0 then ((Except.ok ((0 : ℚ), (0 : ℚ)) : Except PyError (ℚ × ℚ)), G1)
          else (Except.ok ((t : ℚ) / (c : ℚ),
            (c : ℚ) / (host_pairs.length : ℚ) * 100), G1)).2 = G
      split <;> exact hg

end FatTree
